import Mathlib

/-!
Verification development for the lambdamoo-db-py core: a shallow embedding of
the typed value model (`database.py`), the structural diff engine
(`compare.py`) and the dump writer (`writer.py`), with theorems settling the
specification claims about them.

Conventions of the embedding:
* Python floats are modelled as exact rationals (the rational value denoted by
  the IEEE-754 double); NaN and the infinities are outside the model.
* Python `dict`s are modelled as association lists in insertion order; real
  Python dicts never hold two `==`-equal keys, which the model states
  explicitly where a proof needs it.
* Code that can raise is modelled in `Except String`; the payload names the
  Python exception.
-/

namespace LambdaMooDb

/-! ## Decimal rendering of integers (Python `str(int)` / f-string of `int`) -/

def digitChar (n : Nat) : Char := Char.ofNat (48 + n)

/-- Digits of `n`, most significant first.  Fuel-based; `fuel = n + 1` always
suffices since `n / 10 < n` for `n ≥ 10`. -/
def natDigitsAux : Nat → Nat → List Char
  | 0, _ => []
  | fuel + 1, n =>
    if n < 10 then [digitChar n]
    else natDigitsAux fuel (n / 10) ++ [digitChar (n % 10)]

def natDigitsList (n : Nat) : List Char := natDigitsAux (n + 1) n

/-- Python's decimal rendering of an `int` (what `f"{int(i)}"` produces). -/
def pyIntStr : Int → String
  | .ofNat n => String.mk (natDigitsList n)
  | .negSucc m => String.mk ('-' :: natDigitsList (m + 1))

/-! ## C-style `%g` formatting of exact rationals

`Writer.writeFloat` emits `f"{f:.19g}"`: the double's exact value rendered
with at most 19 significant digits, correctly rounded, in fixed or scientific
style by the C `%g` rule, with trailing zeros stripped.  The model formats the
exact rational value of the double; its internal arithmetic works on
numerator/denominator pairs in ℕ so that every step is kernel-computable. -/

/-- Number of decimal digits of `n` (fuel-based, `fuel = n + 1` suffices). -/
def natLenAux : Nat → Nat → Nat
  | 0, _ => 0
  | fuel + 1, n => if n < 10 then 1 else natLenAux fuel (n / 10) + 1

def natLen (n : Nat) : Nat := natLenAux (n + 1) n

/-- For `np/dp < 1`: the least `j ≥ 1` with `(np/dp) * 10^j ≥ 1`, so the
decimal exponent is `-j`.  Fuel 2000 covers the entire double range. -/
def decExpSmallAux : Nat → Nat → Nat → Nat → Nat
  | 0, _, _, j => j
  | fuel + 1, np, dp, j =>
    if dp ≤ np * 10 then j + 1 else decExpSmallAux fuel (np * 10) dp (j + 1)

/-- Decimal exponent of the positive rational `np/dp`: the unique `e` with
`10^e ≤ np/dp < 10^(e+1)` (within fuel range). -/
def decExpN (np dp : Nat) : Int :=
  if dp ≤ np then (natLen (np / dp) : Int) - 1
  else -(decExpSmallAux 2000 np dp 0 : Int)

/-- Round the nonnegative fraction `a / b` to the nearest natural, ties to
even (C correct rounding). -/
def roundHalfEvenFrac (a b : Nat) : Nat :=
  let f := a / b
  let r := a % b
  if 2 * r < b then f
  else if b < 2 * r then f + 1
  else if f % 2 = 0 then f else f + 1

def stripTrailingZeroChars (l : List Char) : List Char :=
  (l.reverse.dropWhile (fun c => c = '0')).reverse

/-- Exponent suffix of `%g` scientific style: sign always, two digits min. -/
def expSuffix (e : Int) : String :=
  let ds := natDigitsList e.natAbs
  let ds := if ds.length < 2 then '0' :: ds else ds
  String.mk ('e' :: (if e < 0 then '-' else '+') :: ds)

/-- C `printf("%.<prec>g", x)` on the exact rational value `q`:
round to `prec` significant digits; use scientific style when the decimal
exponent `e` has `e < -4` or `e ≥ prec`, else fixed style; strip trailing
zeros of the fractional part (and a bare trailing point). -/
def formatG (prec : Nat) (q : ℚ) : String :=
  if q.num = 0 then "0"
  else
    let sign : List Char := if q.num < 0 then ['-'] else []
    let np := q.num.natAbs
    let dp := q.den
    let e0 := decExpN np dp
    -- scale |q| by 10^(prec - 1 - e0), kept as an exact fraction
    let k : Int := (prec : Int) - 1 - e0
    let a := if 0 ≤ k then np * 10 ^ k.toNat else np
    let b := if 0 ≤ k then dp else dp * 10 ^ k.natAbs
    let n0 := roundHalfEvenFrac a b
    -- rounding can carry into one extra digit (e.g. 9.99… → 10.0…)
    let n := if 10 ^ prec ≤ n0 then n0 / 10 else n0
    let e := if 10 ^ prec ≤ n0 then e0 + 1 else e0
    let ds := natDigitsList n
    if e < -4 ∨ (prec : Int) ≤ e then
      let frac := stripTrailingZeroChars (ds.drop 1)
      let mant := if frac.length = 0 then ds.take 1 else ds.take 1 ++ '.' :: frac
      String.mk (sign ++ mant) ++ expSuffix e
    else if 0 ≤ e then
      let ip := ds.take (e.toNat + 1)
      let fp := stripTrailingZeroChars (ds.drop (e.toNat + 1))
      String.mk (sign ++ ip ++ (if fp.length = 0 then [] else '.' :: fp))
    else
      String.mk (sign ++ '0' :: '.' :: (List.replicate (e.natAbs - 1) '0' ++ stripTrailingZeroChars ds))

/-- Python `repr(float)` is the shortest round-tripping decimal; the exact
digit selection only influences the relative sort order of float-valued dict
keys inside diff paths (never membership or equality), so the model uses the
round-trip-faithful 17-significant-digit general format. -/
def pyFloatRepr (q : ℚ) : String := formatG 17 q

/-! ## The value model

One constructor per runtime type that a MOO value position can hold in the
Python code: `int`, `bool`, `float`, `str`, the `int` subclasses `ObjNum`,
`MooError`, `MooCatch`, `MooFinally`, `Anon`, `WaifReference`, the `Clear`
singleton, `None`, `list`, `tuple` (waif property pairs), and `dict`. -/

inductive Value where
  | vint (n : Int)
  | vbool (b : Bool)
  | vfloat (q : ℚ)
  | vstr (s : String)
  | vobj (n : Int)
  | verr (n : Int)
  | vcatch (n : Int)
  | vfinally (n : Int)
  | vanon (n : Int)
  | vwaifref (idx : Int)
  | vclear
  | vnone
  | vlist (xs : List Value)
  | vtuple (xs : List Value)
  | vmap (es : List (Value × Value))

/-- The Python class name of the value: what `type(v)` identity compares by
in `compare_values` (`type(expected) is not type(actual)`). -/
def pyTypeName : Value → String
  | .vint _ => "int"
  | .vbool _ => "bool"
  | .vfloat _ => "float"
  | .vstr _ => "str"
  | .vobj _ => "ObjNum"
  | .verr _ => "MooError"
  | .vcatch _ => "MooCatch"
  | .vfinally _ => "MooFinally"
  | .vanon _ => "Anon"
  | .vwaifref _ => "WaifReference"
  | .vclear => "Clear"
  | .vnone => "NoneType"
  | .vlist _ => "list"
  | .vtuple _ => "tuple"
  | .vmap _ => "dict"

/-- Numeric view used by Python `==`: `bool` and every `int` subclass compare
by numeric value, and `int` compares equal to `float` of the same value. -/
def pyNumVal : Value → Option ℚ
  | .vint n => some (n : ℚ)
  | .vbool b => some (if b then 1 else 0)
  | .vfloat q => some q
  | .vobj n => some (n : ℚ)
  | .verr n => some (n : ℚ)
  | .vcatch n => some (n : ℚ)
  | .vfinally n => some (n : ℚ)
  | .vanon n => some (n : ℚ)
  | _ => none

/-! Python `==` on values (`pyEq`), together with the first-match association
lookup that Python dict indexing performs (`pyEqMapFind` scans entries in
order, exactly like a dict probe resolving to the first `==`-equal key).
Python dict equality is length equality plus one-sided containment; with
unique keys (as in every real dict) that is symmetric. -/

mutual

def pyEq : Value → Value → Bool
  | a, b =>
    match pyNumVal a, pyNumVal b with
    | some x, some y => x == y
    | _, _ =>
      match a, b with
      | .vstr s, .vstr t => s == t
      | .vnone, .vnone => true
      | .vclear, .vclear => true
      | .vwaifref i, .vwaifref j => i == j
      | .vlist xs, .vlist ys => pyEqList xs ys
      | .vtuple xs, .vtuple ys => pyEqList xs ys
      | .vmap xs, .vmap ys => xs.length == ys.length && pyEqMapSub xs ys
      | _, _ => false
termination_by a b => sizeOf a + sizeOf b
decreasing_by all_goals (simp_wf <;> omega)

def pyEqList : List Value → List Value → Bool
  | [], [] => true
  | x :: xs, y :: ys => pyEq x y && pyEqList xs ys
  | _, _ => false
termination_by xs ys => sizeOf xs + sizeOf ys
decreasing_by all_goals (simp_wf <;> omega)

def pyEqMapSub : List (Value × Value) → List (Value × Value) → Bool
  | [], _ => true
  | (k, v) :: rest, ys => pyEqMapFind k v ys && pyEqMapSub rest ys
termination_by xs ys => sizeOf xs + sizeOf ys + 1
decreasing_by all_goals (simp_wf <;> omega)

/-- Probe `l` for the first key `==`-equal to `k` and compare its value
against `v`; `false` if no key matches (Python: `k in other` fails). -/
def pyEqMapFind (k v : Value) : List (Value × Value) → Bool
  | [] => false
  | (k', v') :: rest => if pyEq k k' then pyEq v v' else pyEqMapFind k v rest
termination_by l => sizeOf k + sizeOf v + sizeOf l
decreasing_by all_goals (simp_wf <;> omega)

end

/-- Python dict lookup `d[k]`: value of the first entry whose key is
`==`-equal to `k`. -/
def pyLookup (l : List (Value × Value)) (k : Value) : Option Value :=
  match l with
  | [] => none
  | (k', v') :: rest => if pyEq k k' then some v' else pyLookup rest k

/-- Python dict membership `k in d`. -/
def pyIn (l : List (Value × Value)) (k : Value) : Bool :=
  (pyLookup l k).isSome

/-! ## Well-formedness: no Python dict holds two `==`-equal keys.

The association-list model is larger than the set of real Python dicts; this
predicate carves out the image of real databases, and is assumed wherever a
proof needs reflexivity of `pyEq` / key self-membership. -/

def pairwiseKeysOk (ks : List Value) : Bool :=
  match ks with
  | [] => true
  | k :: rest => rest.all (fun k' => !pyEq k k' && !pyEq k' k) && pairwiseKeysOk rest

mutual

def noDupMapKeys : Value → Bool
  | .vlist xs => noDupList xs
  | .vtuple xs => noDupList xs
  | .vmap es => pairwiseKeysOk (es.map Prod.fst) && noDupPairs es
  | _ => true
termination_by v => sizeOf v
decreasing_by all_goals (simp_wf <;> omega)

def noDupList : List Value → Bool
  | [] => true
  | x :: xs => noDupMapKeys x && noDupList xs
termination_by xs => sizeOf xs
decreasing_by all_goals (simp_wf <;> omega)

def noDupPairs : List (Value × Value) → Bool
  | [] => true
  | (k, v) :: rest => noDupMapKeys k && noDupMapKeys v && noDupPairs rest
termination_by es => sizeOf es
decreasing_by all_goals (simp_wf <;> omega)

end

/-! ## Python `repr` / `str` of values, used only to order dict keys in diffs.

`_compare_dicts` sorts the union of keys by `(type(k).__name__, str(k))`.
Approximations (noted inline) affect only that ordering, never membership. -/

mutual

def pyRepr : Value → String
  | .vint n => pyIntStr n
  | .vbool b => if b then "True" else "False"
  | .vfloat q => pyFloatRepr q
  | .vstr s => "'" ++ s ++ "'"
  | .vobj n => "ObjNum(" ++ pyIntStr n ++ ")"
  | .verr n => pyIntStr n
  | .vcatch n => pyIntStr n
  | .vfinally n => pyIntStr n
  | .vanon n => pyIntStr n
  | .vwaifref i => "WaifReference(index=" ++ pyIntStr i ++ ")"
  | .vclear => "CLEAR"
  | .vnone => "None"
  | .vlist xs => "[" ++ String.intercalate ", " (pyReprList xs) ++ "]"
  | .vtuple xs =>
    match pyReprList xs with
    | [x] => "(" ++ x ++ ",)"
    | rs => "(" ++ String.intercalate ", " rs ++ ")"
  | .vmap es => "\x7b" ++ String.intercalate ", " (pyReprPairs es) ++ "\x7d"
termination_by v => sizeOf v
decreasing_by all_goals (simp_wf <;> omega)

def pyReprList : List Value → List String
  | [] => []
  | x :: xs => pyRepr x :: pyReprList xs
termination_by xs => sizeOf xs
decreasing_by all_goals (simp_wf <;> omega)

def pyReprPairs : List (Value × Value) → List String
  | [] => []
  | (k, v) :: rest => (pyRepr k ++ ": " ++ pyRepr v) :: pyReprPairs rest
termination_by es => sizeOf es
decreasing_by all_goals (simp_wf <;> omega)

end

/-- Python `str(v)`: the string itself for `str`, `#n` for `ObjNum`
(custom `__str__`), otherwise `repr`. -/
def pyStr : Value → String
  | .vstr s => s
  | .vobj n => "#" ++ pyIntStr n
  | v => pyRepr v

/-! ## Stable sorting (Python `sorted`)

Python `sorted` is a stable sort by a key function; insertion placing each
element after all previously placed elements whose key is `≤` its own is
stable and produces the same list for any total preorder. -/

def insertAfterLe {α : Type} (le : α → α → Bool) (x : α) : List α → List α
  | [] => [x]
  | y :: ys => if le y x then y :: insertAfterLe le x ys else x :: y :: ys

def pySorted {α : Type} (le : α → α → Bool) (l : List α) : List α :=
  l.foldl (fun acc x => insertAfterLe le x acc) []

/-- The comparison used for dict-key ordering: lexicographic on
`(type(k).__name__, str(k))`. -/
def dictKeyLe (a b : Value) : Bool :=
  if pyTypeName a = pyTypeName b then !decide (pyStr b < pyStr a)
  else decide (pyTypeName a < pyTypeName b)

/-! ## Entity records (`database.py`)

Fields are those the compared/written operations read.  `MooDatabase` in the
source also carries task queues, clocks and connection lines; no claimed
operation (`compare_databases`, `writeObject`, `writeWaif`, `writeVerbs`,
`writeInt`, `writeFloat`) touches them, so they are omitted here. -/

structure Verb where
  name : String
  owner : Int
  perms : Int
  preps : Int
  object : Int
  /-- `none` = no program; `some []` = present but empty program. -/
  code : Option (List String)
deriving DecidableEq

structure Property where
  propertyName : String
  value : Value
  owner : Int
  perms : Int

structure MooObject where
  id : Int
  name : String
  flags : Int
  owner : Int
  location : Value
  parents : List Int
  children : List Int
  last_move : Value
  contents : List Int
  verbs : List Verb
  properties : List Property
  propdefs_count : Nat
  anon : Bool

structure Waif where
  waif_class : Int
  owner : Int
  /-- `(slot_index, value)` pairs, as stored for round-trip. -/
  props : List (Int × Value)
  propdefs_length : Int

structure MooDatabase where
  versionstring : String
  version : Int
  total_objects : Int
  players : List Int
  /-- Python `set[int]`; compared after `sorted(...)`. -/
  recycled_objects : List Int
  pending_anon_ids : List Int
  /-- Python `dict[int, MooObject]` in insertion order. -/
  objects : List (Int × MooObject)
  /-- Python `dict[int, Waif]` keyed by original index. -/
  waifs : List (Int × Waif)
  line_ending : String

/-! ## The diff model (`compare.py`) -/

inductive DiffKind where
  | valueChanged
  | typeMismatch
  | missing
  | extra
  | lengthMismatch
deriving DecidableEq

/-- One path segment.  Python stores `str` segments, `int` segments, and for
non-`str` dict keys the string `[` + `repr(key)` + `]`; the model keeps the
key itself in that case (only `__str__` rendering, which no claim touches,
would flatten it). -/
inductive PathSeg where
  | str (s : String)
  | idx (n : Int)
  | keyOf (k : Value)

structure DiffPath where
  segments : List PathSeg

def DiffPath.child (p : DiffPath) (s : PathSeg) : DiffPath :=
  ⟨p.segments ++ [s]⟩

def DiffPath.root : DiffPath := ⟨[]⟩

/-- `DiffPath.object(obj_id)`: a single segment `"#<id>"`. -/
def DiffPath.objectOf (objId : Int) : DiffPath :=
  ⟨[.str ("#" ++ pyIntStr objId)]⟩

/-- Payload of a `Diff`'s `expected`/`actual` slot: Python stores a value, a
`type` object (here its name), or a whole entity record.  Python `None`
payloads are `.v .vnone`. -/
inductive DVal where
  | v (x : Value)
  | ty (name : String)
  | prop (p : Property)
  | verb (x : Verb)
  | obj (x : MooObject)
  | waifd (w : Waif)

structure Diff where
  path : DiffPath
  kind : DiffKind
  expected : DVal
  actual : DVal

structure CompareResult where
  diffs : List Diff

/-- `math.isclose(a, b, rel_tol=1e-9, abs_tol=1e-12)`:
`abs(a-b) <= max(rel_tol * max(abs(a), abs(b)), abs_tol)`. -/
def mathIsClose (a b : ℚ) : Bool :=
  decide (|a - b| ≤ max (1 / 1000000000 * max |a| |b|) (1 / 1000000000000))

def isNoneV : Value → Bool
  | .vnone => true
  | _ => false

/-! ## `compare_values` and helpers

Faithful to `compare.py`: `compare_lists` is `_compare_lists` (the
index-by-index loop is `compare_items`), `compare_dicts` is `_compare_dicts`
(union of keys sorted by `(type-name, str)`, then the per-key loop
`compare_dict_keys`).  Guarded dict indexing is modelled with `pyLookup`; the
`.error` branches are Python's `KeyError`, reachable only if a guard and the
lookup disagreed. -/

mutual

def compare_values (path : DiffPath) (expected actual : Value) :
    Except String (List Diff) :=
  -- `if expected is None and actual is None` / `if expected is None or actual is None`
  if isNoneV expected && isNoneV actual then .ok []
  else if isNoneV expected || isNoneV actual then
    .ok [⟨path, .valueChanged, .v expected, .v actual⟩]
  -- `if type(expected) is not type(actual)`
  else if pyTypeName expected ≠ pyTypeName actual then
    .ok [⟨path, .typeMismatch, .ty (pyTypeName expected), .ty (pyTypeName actual)⟩]
  else
    match expected, actual with
    | .vclear, _ => .ok []
    | .vwaifref i, .vwaifref j =>
      if i ≠ j then .ok [⟨path, .valueChanged, .v (.vwaifref i), .v (.vwaifref j)⟩]
      else .ok []
    | .vlist xs, .vlist ys => compare_lists path xs ys
    | .vtuple xs, .vtuple ys => compare_lists path xs ys
    | .vmap xs, .vmap ys => compare_dicts path xs ys
    | .vfloat x, .vfloat y =>
      if mathIsClose x y then .ok []
      else .ok [⟨path, .valueChanged, .v (.vfloat x), .v (.vfloat y)⟩]
    | e, a =>
      -- primitives and wrapper types: `if expected != actual`
      if pyEq e a then .ok [] else .ok [⟨path, .valueChanged, .v e, .v a⟩]
termination_by (sizeOf expected + sizeOf actual, 0)
decreasing_by all_goals (simp_wf <;> omega)

def compare_lists (path : DiffPath) (expected actual : List Value) :
    Except String (List Diff) := do
  let lenDiffs : List Diff :=
    if expected.length ≠ actual.length then
      [⟨path, .lengthMismatch, .v (.vint expected.length), .v (.vint actual.length)⟩]
    else []
  let inner ← compare_items path 0 expected actual
  let missing : List Diff :=
    (expected.drop actual.length).enum.map fun p =>
      ⟨path.child (.idx (Int.ofNat (actual.length + p.1))), .missing, .v p.2, .v .vnone⟩
  let extra : List Diff :=
    (actual.drop expected.length).enum.map fun p =>
      ⟨path.child (.idx (Int.ofNat (expected.length + p.1))), .extra, .v .vnone, .v p.2⟩
  .ok (lenDiffs ++ inner ++ missing ++ extra)
termination_by (sizeOf expected + sizeOf actual + 1, 0)
decreasing_by all_goals (simp_wf <;> omega)

/-- `for i in range(min(len(expected), len(actual))): compare_values(path.child(i), …)` -/
def compare_items (path : DiffPath) (i : Nat) :
    List Value → List Value → Except String (List Diff)
  | x :: xs, y :: ys => do
    let d ← compare_values (path.child (.idx (Int.ofNat i))) x y
    let rest ← compare_items path (i + 1) xs ys
    .ok (d ++ rest)
  | _, _ => .ok []
termination_by xs ys => (sizeOf xs + sizeOf ys, 0)
decreasing_by all_goals (simp_wf <;> omega)

def compare_dicts (path : DiffPath) (expected actual : List (Value × Value)) :
    Except String (List Diff) :=
  -- `all_keys = set(expected.keys()) | set(actual.keys())`, then
  -- `sorted(all_keys, key=lambda k: (type(k).__name__, str(k)))`
  let allKeys :=
    (expected.map Prod.fst) ++ ((actual.map Prod.fst).filter fun k => !pyIn expected k)
  compare_dict_keys path (pySorted dictKeyLe allKeys) expected actual
termination_by (sizeOf expected + sizeOf actual + 1, 0)
decreasing_by all_goals (simp_wf <;> omega)

/-- The per-key child path of `_compare_dicts`: a string key extends the path
by the string itself, any other key by its `key-of` marker. -/
def dictKeyPath (path : DiffPath) (k : Value) : DiffPath :=
  match k with
  | .vstr s => path.child (.str s)
  | other => path.child (.keyOf other)

/-- One iteration of the `for key in all_keys` loop of `_compare_dicts`: the
single diff record (or value comparison) this key contributes. -/
def compare_dict_key_one (path : DiffPath) (k : Value)
    (expected actual : List (Value × Value)) : Except String (List Diff) :=
  let keyPath := dictKeyPath path k
  if !pyIn actual k then
    match pyLookup expected k with
    | some ve => .ok [⟨keyPath, .missing, .v ve, .v .vnone⟩]
    | none => .error "KeyError"
  else if !pyIn expected k then
    match pyLookup actual k with
    | some va => .ok [⟨keyPath, .extra, .v .vnone, .v va⟩]
    | none => .error "KeyError"
  else
    match hve : pyLookup expected k with
    | some ve =>
      match hva : pyLookup actual k with
      | some va => compare_values keyPath ve va
      | none => .error "KeyError"
    | none => .error "KeyError"
termination_by (sizeOf expected + sizeOf actual, 1)
decreasing_by
  simp_wf
  have hb : ∀ (l : List (Value × Value)) (k v : Value),
      pyLookup l k = some v → sizeOf v < sizeOf l := by
    intro l k v h
    induction l with
    | nil => simp [pyLookup] at h
    | cons p rest ih =>
      obtain ⟨k', v'⟩ := p
      simp only [pyLookup] at h
      split at h
      · cases h; simp; omega
      · have := ih h; simp; omega
  have h1 := hb _ _ _ hve
  have h2 := hb _ _ _ hva
  exact Prod.Lex.left _ _ (by omega)

def compare_dict_keys (path : DiffPath) (ks : List Value)
    (expected actual : List (Value × Value)) : Except String (List Diff) :=
  match ks with
  | [] => .ok []
  | k :: rest => do
    let d ← compare_dict_key_one path k expected actual
    let restD ← compare_dict_keys path rest expected actual
    .ok (d ++ restD)
termination_by (sizeOf expected + sizeOf actual, ks.length + 2)
decreasing_by
  all_goals simp_wf
  · exact Prod.Lex.right _ (by omega)
  · exact Prod.Lex.right _ (by omega)

end

/-! ## Entity-level comparators (`compare.py`) -/

/-- `{p.propertyName: p for p in ps}`: later duplicates replace the value,
keeping the first insertion position (Python dict-comprehension semantics). -/
def insertOrReplace : List (String × Property) → String → Property →
    List (String × Property)
  | [], n, p => [(n, p)]
  | (n', p') :: rest, n, p =>
    if n' = n then (n', p) :: rest else (n', p') :: insertOrReplace rest n p

def buildByName (ps : List Property) : List (String × Property) :=
  ps.foldl (fun acc p => insertOrReplace acc p.propertyName p) []

/-- String order used by `sorted(all_names, key=str)`. -/
def strLe (a b : String) : Bool := !decide (b < a)

/-- Body of `compare_properties` for one name present on both sides. -/
def compare_prop_pair (propPath : DiffPath) (ep ap : Property) :
    Except String (List Diff) := do
  let vd ← compare_values (propPath.child (.str "value")) ep.value ap.value
  let od : List Diff :=
    if ep.owner ≠ ap.owner then
      [⟨propPath.child (.str "owner"), .valueChanged, .v (.vint ep.owner), .v (.vint ap.owner)⟩]
    else []
  let pd : List Diff :=
    if ep.perms ≠ ap.perms then
      [⟨propPath.child (.str "perms"), .valueChanged, .v (.vint ep.perms), .v (.vint ap.perms)⟩]
    else []
  .ok (vd ++ od ++ pd)

def compare_props_names (path : DiffPath) :
    List String → List (String × Property) → List (String × Property) →
    Except String (List Diff)
  | [], _, _ => .ok []
  | n :: rest, expByName, actByName =>
    let propPath := (path.child (.str "properties")).child (.str n)
    if (List.lookup n actByName).isNone then
      match List.lookup n expByName with
      | some p => do
        let restD ← compare_props_names path rest expByName actByName
        .ok (⟨propPath, .missing, .prop p, .v .vnone⟩ :: restD)
      | none => .error "KeyError"
    else if (List.lookup n expByName).isNone then
      match List.lookup n actByName with
      | some p => do
        let restD ← compare_props_names path rest expByName actByName
        .ok (⟨propPath, .extra, .v .vnone, .prop p⟩ :: restD)
      | none => .error "KeyError"
    else
      match List.lookup n expByName, List.lookup n actByName with
      | some ep, some ap => do
        let d ← compare_prop_pair propPath ep ap
        let restD ← compare_props_names path rest expByName actByName
        .ok (d ++ restD)
      | _, _ => .error "KeyError"

/-- `compare_properties`: compare by property name over the sorted union. -/
def compare_properties (path : DiffPath) (expected actual : List Property) :
    Except String (List Diff) :=
  let expByName := buildByName expected
  let actByName := buildByName actual
  let allNames :=
    (expByName.map Prod.fst) ++
      ((actByName.map Prod.fst).filter fun n => (List.lookup n expByName).isNone)
  compare_props_names path (pySorted strLe allNames) expByName actByName

def strListV (c : List String) : Value := .vlist (c.map .vstr)

/-- Per-index verb comparison body of `compare_verbs`, including the
three-way code logic. -/
def verb_pair_diffs (verbPath : DiffPath) (ev av : Verb) :
    Except String (List Diff) := do
  let nd : List Diff :=
    if ev.name ≠ av.name then
      [⟨verbPath.child (.str "name"), .valueChanged, .v (.vstr ev.name), .v (.vstr av.name)⟩]
    else []
  let od : List Diff :=
    if ev.owner ≠ av.owner then
      [⟨verbPath.child (.str "owner"), .valueChanged, .v (.vint ev.owner), .v (.vint av.owner)⟩]
    else []
  let pd : List Diff :=
    if ev.perms ≠ av.perms then
      [⟨verbPath.child (.str "perms"), .valueChanged, .v (.vint ev.perms), .v (.vint av.perms)⟩]
    else []
  let ppd : List Diff :=
    if ev.preps ≠ av.preps then
      [⟨verbPath.child (.str "preps"), .valueChanged, .v (.vint ev.preps), .v (.vint av.preps)⟩]
    else []
  let cd ← match ev.code, av.code with
    | none, none => pure ([] : List Diff)
    | none, some c =>
      pure [⟨verbPath.child (.str "code"), .valueChanged, .v .vnone, .v (strListV c)⟩]
    | some c, none =>
      pure [⟨verbPath.child (.str "code"), .valueChanged, .v (strListV c), .v .vnone⟩]
    | some ec, some ac => compare_values (verbPath.child (.str "code")) (strListV ec) (strListV ac)
  .ok (nd ++ od ++ pd ++ ppd ++ cd)

def verbs_zip (path : DiffPath) (i : Nat) :
    List Verb → List Verb → Except String (List Diff)
  | ev :: es, av :: as2 => do
    let d ← verb_pair_diffs ((path.child (.str "verbs")).child (.idx (Int.ofNat i))) ev av
    let rest ← verbs_zip path (i + 1) es as2
    .ok (d ++ rest)
  | _, _ => .ok []

/-- `compare_verbs`: compare by index (duplicate names are legal). -/
def compare_verbs (path : DiffPath) (expected actual : List Verb) :
    Except String (List Diff) := do
  let ld : List Diff :=
    if expected.length ≠ actual.length then
      [⟨path.child (.str "verbs"), .lengthMismatch,
        .v (.vint expected.length), .v (.vint actual.length)⟩]
    else []
  let inner ← verbs_zip path 0 expected actual
  let missing : List Diff :=
    (expected.drop actual.length).enum.map fun p =>
      ⟨(path.child (.str "verbs")).child (.idx (Int.ofNat (actual.length + p.1))),
        .missing, .verb p.2, .v .vnone⟩
  let extra : List Diff :=
    (actual.drop expected.length).enum.map fun p =>
      ⟨(path.child (.str "verbs")).child (.idx (Int.ofNat (expected.length + p.1))),
        .extra, .v .vnone, .verb p.2⟩
  .ok (ld ++ inner ++ missing ++ extra)

def intListV (l : List Int) : Value := .vlist (l.map .vint)

def compare_objects (path : DiffPath) (expected actual : MooObject) :
    Except String (List Diff) := do
  let d1 : List Diff :=
    if expected.name ≠ actual.name then
      [⟨path.child (.str "name"), .valueChanged, .v (.vstr expected.name), .v (.vstr actual.name)⟩]
    else []
  let d2 : List Diff :=
    if expected.flags ≠ actual.flags then
      [⟨path.child (.str "flags"), .valueChanged, .v (.vint expected.flags), .v (.vint actual.flags)⟩]
    else []
  let d3 : List Diff :=
    if expected.owner ≠ actual.owner then
      [⟨path.child (.str "owner"), .valueChanged, .v (.vint expected.owner), .v (.vint actual.owner)⟩]
    else []
  -- `expected.location != actual.location` is a Python `==` test on values
  let d4 : List Diff :=
    if !pyEq expected.location actual.location then
      [⟨path.child (.str "location"), .valueChanged, .v expected.location, .v actual.location⟩]
    else []
  let d5 : List Diff :=
    if !pyEq expected.last_move actual.last_move then
      [⟨path.child (.str "last_move"), .valueChanged, .v expected.last_move, .v actual.last_move⟩]
    else []
  let d6 : List Diff :=
    if expected.propdefs_count ≠ actual.propdefs_count then
      [⟨path.child (.str "propdefs_count"), .valueChanged,
        .v (.vint expected.propdefs_count), .v (.vint actual.propdefs_count)⟩]
    else []
  let d7 : List Diff :=
    if expected.anon ≠ actual.anon then
      [⟨path.child (.str "anon"), .valueChanged, .v (.vbool expected.anon), .v (.vbool actual.anon)⟩]
    else []
  let dParents ← compare_values (path.child (.str "parents"))
    (intListV expected.parents) (intListV actual.parents)
  let dChildren ← compare_values (path.child (.str "children"))
    (intListV expected.children) (intListV actual.children)
  let dContents ← compare_values (path.child (.str "contents"))
    (intListV expected.contents) (intListV actual.contents)
  let dProps ← compare_properties path expected.properties actual.properties
  let dVerbs ← compare_verbs path expected.verbs actual.verbs
  .ok (d1 ++ d2 ++ d3 ++ d4 ++ d5 ++ d6 ++ d7 ++ dParents ++ dChildren ++ dContents ++ dProps ++ dVerbs)

def waifPropsV (ps : List (Int × Value)) : Value :=
  .vlist (ps.map fun sv => .vtuple [.vint sv.1, sv.2])

def compare_waif (path : DiffPath) (expected actual : Waif) :
    Except String (List Diff) := do
  let d1 : List Diff :=
    if expected.waif_class ≠ actual.waif_class then
      [⟨path.child (.str "waif_class"), .valueChanged,
        .v (.vint expected.waif_class), .v (.vint actual.waif_class)⟩]
    else []
  let d2 : List Diff :=
    if expected.owner ≠ actual.owner then
      [⟨path.child (.str "owner"), .valueChanged,
        .v (.vint expected.owner), .v (.vint actual.owner)⟩]
    else []
  let d3 : List Diff :=
    if expected.propdefs_length ≠ actual.propdefs_length then
      [⟨path.child (.str "propdefs_length"), .valueChanged,
        .v (.vint expected.propdefs_length), .v (.vint actual.propdefs_length)⟩]
    else []
  let dProps ← compare_values (path.child (.str "props"))
    (waifPropsV expected.props) (waifPropsV actual.props)
  .ok (d1 ++ d2 ++ d3 ++ dProps)

/-- First-kept deduplication (Python `set` of `int` keys, then `sorted`). -/
def dedupIntsAux : List Int → List Int → List Int
  | [], acc => acc.reverse
  | x :: xs, acc =>
    if x ∈ acc then dedupIntsAux xs acc else dedupIntsAux xs (x :: acc)

def dedupInts (l : List Int) : List Int := dedupIntsAux l []

def intLe (a b : Int) : Bool := decide (a ≤ b)

def waifs_loop (path : DiffPath) :
    List Int → List (Int × Waif) → List (Int × Waif) → Except String (List Diff)
  | [], _, _ => .ok []
  | idx :: rest, expected, actual =>
    let waifPath := (path.child (.str "waifs")).child (.idx idx)
    if (List.lookup idx actual).isNone then
      match List.lookup idx expected with
      | some w => do
        let restD ← waifs_loop path rest expected actual
        .ok (⟨waifPath, .missing, .waifd w, .v .vnone⟩ :: restD)
      | none => .error "KeyError"
    else if (List.lookup idx expected).isNone then
      match List.lookup idx actual with
      | some w => do
        let restD ← waifs_loop path rest expected actual
        .ok (⟨waifPath, .extra, .v .vnone, .waifd w⟩ :: restD)
      | none => .error "KeyError"
    else
      match List.lookup idx expected, List.lookup idx actual with
      | some ew, some aw => do
        let d ← compare_waif waifPath ew aw
        let restD ← waifs_loop path rest expected actual
        .ok (d ++ restD)
      | _, _ => .error "KeyError"

def compare_waifs (path : DiffPath) (expected actual : List (Int × Waif)) :
    Except String (List Diff) :=
  let allIdx := dedupInts ((expected.map Prod.fst) ++ (actual.map Prod.fst))
  waifs_loop path (pySorted intLe allIdx) expected actual

/-! ## `compare_databases` -/

/-- `_add_diffs`: append one by one; after each append continue only while
`max_diffs is None or len(diffs) < max_diffs`.  Returns the accumulated list
and the continue flag. -/
def addDiffsLoop (maxDiffs : Option Nat) :
    List Diff → List Diff → List Diff × Bool
  | acc, [] => (acc, true)
  | acc, d :: rest =>
    let acc' := acc ++ [d]
    if (match maxDiffs with | none => true | some m => acc'.length < m) then
      addDiffsLoop maxDiffs acc' rest
    else (acc', false)

/-- The per-object-id loop of `compare_databases`; stops the whole pass as
soon as an `_add_diff(s)` reports the limit reached. -/
def objects_loop (maxDiffs : Option Nat) :
    List Int → List (Int × MooObject) → List (Int × MooObject) → List Diff →
    Except String (List Diff × Bool)
  | [], _, _, acc => .ok (acc, true)
  | objId :: rest, eobjs, aobjs, acc =>
    let objPath := DiffPath.objectOf objId
    if (List.lookup objId aobjs).isNone then
      match List.lookup objId eobjs with
      | some o =>
        let r := addDiffsLoop maxDiffs acc [⟨objPath, .missing, .obj o, .v .vnone⟩]
        if r.2 then objects_loop maxDiffs rest eobjs aobjs r.1 else .ok (r.1, false)
      | none => .error "KeyError"
    else if (List.lookup objId eobjs).isNone then
      match List.lookup objId aobjs with
      | some o =>
        let r := addDiffsLoop maxDiffs acc [⟨objPath, .extra, .v .vnone, .obj o⟩]
        if r.2 then objects_loop maxDiffs rest eobjs aobjs r.1 else .ok (r.1, false)
      | none => .error "KeyError"
    else
      match List.lookup objId eobjs, List.lookup objId aobjs with
      | some eo, some ao => do
        let ds ← compare_objects objPath eo ao
        let r := addDiffsLoop maxDiffs acc ds
        if r.2 then objects_loop maxDiffs rest eobjs aobjs r.1 else .ok (r.1, false)
      | _, _ => .error "KeyError"

/-- The `version` line of `compare_databases` (skipped when ignored). -/
def db_version_diffs (ignore : List String) (expected actual : MooDatabase) :
    List Diff :=
  if ignore.contains "version" then []
  else if expected.version ≠ actual.version then
    [⟨DiffPath.root.child (.str "version"), .valueChanged,
      .v (.vint expected.version), .v (.vint actual.version)⟩]
  else []

/-- The `versionstring` line. -/
def db_versionstring_diffs (ignore : List String) (expected actual : MooDatabase) :
    List Diff :=
  if ignore.contains "versionstring" then []
  else if expected.versionstring ≠ actual.versionstring then
    [⟨DiffPath.root.child (.str "versionstring"), .valueChanged,
      .v (.vstr expected.versionstring), .v (.vstr actual.versionstring)⟩]
  else []

/-- The `total_objects` line. -/
def db_total_objects_diffs (ignore : List String) (expected actual : MooDatabase) :
    List Diff :=
  if ignore.contains "total_objects" then []
  else if expected.total_objects ≠ actual.total_objects then
    [⟨DiffPath.root.child (.str "total_objects"), .valueChanged,
      .v (.vint expected.total_objects), .v (.vint actual.total_objects)⟩]
  else []

/-- The `players` section of `compare_databases` (skipped when ignored). -/
def db_section_players (ignore : List String) (expected actual : MooDatabase) :
    Except String (List Diff) :=
  if ignore.contains "players" then pure []
  else
    compare_values (DiffPath.root.child (.str "players")) (intListV expected.players)
      (intListV actual.players)

/-- The `recycled_objects` section: both sides deduplicated and sorted. -/
def db_section_recycled (ignore : List String) (expected actual : MooDatabase) :
    Except String (List Diff) :=
  if ignore.contains "recycled_objects" then pure []
  else
    compare_values (DiffPath.root.child (.str "recycled_objects"))
      (intListV (pySorted intLe (dedupInts expected.recycled_objects)))
      (intListV (pySorted intLe (dedupInts actual.recycled_objects)))

/-- The `pending_anon_ids` section. -/
def db_section_anon (ignore : List String) (expected actual : MooDatabase) :
    Except String (List Diff) :=
  if ignore.contains "pending_anon_ids" then pure []
  else
    compare_values (DiffPath.root.child (.str "pending_anon_ids"))
      (intListV expected.pending_anon_ids) (intListV actual.pending_anon_ids)

/-- The per-object loop section of `compare_databases`, over the sorted union
of object ids; skipped when `objects` is ignored. -/
def db_section_objects (ignore : List String) (maxDiffs : Option Nat)
    (expected actual : MooDatabase) (diffs : List Diff) :
    Except String (List Diff × Bool) :=
  if ignore.contains "objects" then pure (diffs, true)
  else
    objects_loop maxDiffs
      (pySorted intLe (dedupInts
        ((expected.objects.map Prod.fst) ++ (actual.objects.map Prod.fst))))
      expected.objects actual.objects diffs

/-- The `waifs` section. -/
def db_section_waifs (ignore : List String) (expected actual : MooDatabase) :
    Except String (List Diff) :=
  if ignore.contains "waifs" then pure []
  else compare_waifs DiffPath.root expected.waifs actual.waifs

/-- `compare_databases(expected, actual, ignore_fields=…, max_diffs=…)`.
Each section computes its diffs, feeds them through the `_add_diff(s)`
cut-off, and returns early when the limit is hit — later sections are then
never evaluated, exactly as in the source. -/
def compare_databases (expected actual : MooDatabase)
    (ignore_fields : Option (List String)) (max_diffs : Option Nat) :
    Except String CompareResult :=
  let ignore := ignore_fields.getD []
  match addDiffsLoop max_diffs [] (db_version_diffs ignore expected actual) with
  | (diffs, false) => .ok ⟨diffs⟩
  | (diffs, true) =>
  match addDiffsLoop max_diffs diffs (db_versionstring_diffs ignore expected actual) with
  | (diffs, false) => .ok ⟨diffs⟩
  | (diffs, true) =>
  match addDiffsLoop max_diffs diffs (db_total_objects_diffs ignore expected actual) with
  | (diffs, false) => .ok ⟨diffs⟩
  | (diffs, true) => do
  let playerDiffs ← db_section_players ignore expected actual
  match addDiffsLoop max_diffs diffs playerDiffs with
  | (diffs, false) => .ok ⟨diffs⟩
  | (diffs, true) => do
  let recycledDiffs ← db_section_recycled ignore expected actual
  match addDiffsLoop max_diffs diffs recycledDiffs with
  | (diffs, false) => .ok ⟨diffs⟩
  | (diffs, true) => do
  let anonDiffs ← db_section_anon ignore expected actual
  match addDiffsLoop max_diffs diffs anonDiffs with
  | (diffs, false) => .ok ⟨diffs⟩
  | (diffs, true) => do
  let objState ← db_section_objects ignore max_diffs expected actual diffs
  match objState with
  | (diffs, false) => .ok ⟨diffs⟩
  | (diffs, true) => do
  let waifDiffs ← db_section_waifs ignore expected actual
  .ok ⟨(addDiffsLoop max_diffs diffs waifDiffs).1⟩

/-- Concatenation of written chunks (the Python `for` loops that call
`write` repeatedly). -/
def strConcat : List String → String
  | [] => ""
  | s :: rest => s ++ strConcat rest

/-! ## The writer (`writer.py`)

Methods write to a text stream; the model returns the written text.  Raising
methods (`writeInt` on `bool`, `writeValue` on unsupported kinds, missing-key
lookups) are `Except.error`; no text precedes any modelled raise, so the error
result carrying no output is faithful. -/

/-! On-disk type-tag constants (`MooTypes` in `enums.py`). -/

namespace MooTypes

def INT : Int := 0
def OBJ : Int := 1
def STR : Int := 2
def ERR : Int := 3
def LIST : Int := 4
def CLEAR : Int := 5
def NONE : Int := 6
def CATCH : Int := 7
def FINALLY : Int := 8
def FLOAT : Int := 9
def MAP : Int := 10
def ANON : Int := 12
def WAIF : Int := 13
def BOOL : Int := 14

end MooTypes

/-- Python `int(q)` for a float: truncation toward zero. -/
def ratTrunc (q : ℚ) : Int := if q < 0 then q.ceil else q.floor

/-- `Writer.writeInt(i)`: rejects `bool` (an `int` subclass) with `TypeError`
before writing anything, otherwise writes `f"{int(i)}"` with no trailing
newline.  `int()` of the remaining kinds either raises in Python
(`list`/`dict`/`tuple`/`None`/`Clear`/`WaifReference`: `TypeError`) or is
never exercised by this codebase (strings), and is modelled as an error. -/
def writeInt : Value → Except String String
  | .vbool _ => .error "TypeError: writeInt() does not accept bool values"
  | .vint n => .ok (pyIntStr n)
  | .vobj n => .ok (pyIntStr n)
  | .verr n => .ok (pyIntStr n)
  | .vcatch n => .ok (pyIntStr n)
  | .vfinally n => .ok (pyIntStr n)
  | .vanon n => .ok (pyIntStr n)
  | .vfloat q => .ok (pyIntStr (ratTrunc q))
  | _ => .error "TypeError: unsupported operand for int()"

/-- `Writer.writeString(s)`: the string plus the database's line ending. -/
def writeString (db : MooDatabase) (s : String) : String :=
  s ++ db.line_ending

/-- `Writer.writeObj(obj)`: `f"{int(obj)}"`, no newline. -/
def writeObj (n : Int) : String := pyIntStr n

/-- `Writer.writeFloat(f)`: `f"{f:.19g}"` (ToastStunt's DBL_DIG + 4 = 19
significant digits, `%g` format), no newline. -/
def writeFloat (q : ℚ) : String := formatG 19 q

/-- `Writer.writeBool(b)`: `writeInt(1 if b else 0)`. -/
def writeBool (b : Bool) : Except String String :=
  writeInt (.vint (if b then 1 else 0))

/-- The waif-interning table `_written_waifs` (original index → write index),
in insertion order. -/
abbrev WaifTable := List (Int × Int)

/-- Number of waifs of `db` not yet in the interning table; the decreasing
measure that bounds waif-definition nesting. -/
def unwrittenCount (db : MooDatabase) (st : WaifTable) : Nat :=
  ((db.waifs.map Prod.fst).filter fun k => (List.lookup k st).isNone).length

/-- Result of a stateful write starting from table `st`: the written text and
the new table, which extends `st` (waifs are only ever appended) and leaves no
fewer waifs written. -/
def WRes (db : MooDatabase) (st : WaifTable) : Type :=
  String ×
    { st' : WaifTable // st <+: st' ∧ unwrittenCount db st' ≤ unwrittenCount db st }

mutual

/-- `Writer.writeValue(v)`: type tag on its own line, then the value, in the
source's dispatch order.  List and map contents (`writeListContents`,
`writeMapContents`: count line then items) are inlined in their branches. -/
def writeValueP (db : MooDatabase) (st : WaifTable) :
    (v : Value) → Except String (WRes db st)
  | .vbool b => do
    let t ← writeInt (.vint MooTypes.BOOL)
    let bs ← writeBool b
    pure (t ++ db.line_ending ++ bs ++ db.line_ending, ⟨st, List.prefix_rfl, Nat.le_refl _⟩)
  | .verr n => do
    let t ← writeInt (.vint MooTypes.ERR)
    let s ← writeInt (.verr n)
    pure (t ++ db.line_ending ++ s ++ db.line_ending, ⟨st, List.prefix_rfl, Nat.le_refl _⟩)
  | .vcatch n => do
    let t ← writeInt (.vint MooTypes.CATCH)
    let s ← writeInt (.vint n)
    pure (t ++ db.line_ending ++ s ++ db.line_ending, ⟨st, List.prefix_rfl, Nat.le_refl _⟩)
  | .vfinally n => do
    let t ← writeInt (.vint MooTypes.FINALLY)
    let s ← writeInt (.vint n)
    pure (t ++ db.line_ending ++ s ++ db.line_ending, ⟨st, List.prefix_rfl, Nat.le_refl _⟩)
  | .vobj n => do
    let t ← writeInt (.vint MooTypes.OBJ)
    pure (t ++ db.line_ending ++ writeObj n ++ db.line_ending, ⟨st, List.prefix_rfl, Nat.le_refl _⟩)
  | .vanon n => do
    let t ← writeInt (.vint MooTypes.ANON)
    let s ← writeInt (.vint n)
    pure (t ++ db.line_ending ++ s ++ db.line_ending, ⟨st, List.prefix_rfl, Nat.le_refl _⟩)
  | .vint n => do
    let t ← writeInt (.vint MooTypes.INT)
    let s ← writeInt (.vint n)
    pure (t ++ db.line_ending ++ s ++ db.line_ending, ⟨st, List.prefix_rfl, Nat.le_refl _⟩)
  | .vstr s => do
    let t ← writeInt (.vint MooTypes.STR)
    pure (t ++ db.line_ending ++ writeString db s, ⟨st, List.prefix_rfl, Nat.le_refl _⟩)
  | .vfloat q => do
    let t ← writeInt (.vint MooTypes.FLOAT)
    pure (t ++ db.line_ending ++ writeFloat q ++ db.line_ending, ⟨st, List.prefix_rfl, Nat.le_refl _⟩)
  | .vlist xs => do
    let t ← writeInt (.vint MooTypes.LIST)
    let c ← writeInt (.vint (Int.ofNat xs.length))
    let r ← writeItemsP db st xs
    pure (t ++ db.line_ending ++ c ++ db.line_ending ++ r.1, r.2)
  | .vmap es => do
    let t ← writeInt (.vint MooTypes.MAP)
    let c ← writeInt (.vint (Int.ofNat es.length))
    let r ← writePairsP db st es
    pure (t ++ db.line_ending ++ c ++ db.line_ending ++ r.1, r.2)
  | .vclear => do
    let t ← writeInt (.vint MooTypes.CLEAR)
    pure (t ++ db.line_ending, ⟨st, List.prefix_rfl, Nat.le_refl _⟩)
  | .vnone => do
    let t ← writeInt (.vint MooTypes.NONE)
    pure (t ++ db.line_ending, ⟨st, List.prefix_rfl, Nat.le_refl _⟩)
  | .vwaifref i => do
    let t ← writeInt (.vint MooTypes.WAIF)
    let r ← writeWaifP db st i
    pure (t ++ db.line_ending ++ r.1, r.2)
  | .vtuple _ => .error "TypeError: Unsupported value type: tuple"
termination_by v => (unwrittenCount db st, sizeOf v)
decreasing_by
  all_goals exact Prod.Lex.right _ (by simp <;> omega)

/-- The item loop of `writeListContents`. -/
def writeItemsP (db : MooDatabase) (st : WaifTable) :
    (xs : List Value) → Except String (WRes db st)
  | [] => pure ("", ⟨st, List.prefix_rfl, Nat.le_refl _⟩)
  | x :: rest => do
    let r1 ← writeValueP db st x
    let r2 ← writeItemsP db r1.2.1 rest
    pure (r1.1 ++ r2.1,
      ⟨r2.2.1, r1.2.2.1.trans r2.2.2.1, Nat.le_trans r2.2.2.2 r1.2.2.2⟩)
termination_by xs => (unwrittenCount db st, sizeOf xs)
decreasing_by
  · exact Prod.Lex.right _ (by simp <;> omega)
  · rcases lt_or_eq_of_le r1.2.2.2 with hlt | heq
    · exact Prod.Lex.left _ _ hlt
    · rw [heq]; exact Prod.Lex.right _ (by simp <;> omega)

/-- The key/value loop of `writeMapContents`. -/
def writePairsP (db : MooDatabase) (st : WaifTable) :
    (es : List (Value × Value)) → Except String (WRes db st)
  | [] => pure ("", ⟨st, List.prefix_rfl, Nat.le_refl _⟩)
  | (k, v) :: rest => do
    let r1 ← writeValueP db st k
    let r2 ← writeValueP db r1.2.1 v
    let r3 ← writePairsP db r2.2.1 rest
    pure (r1.1 ++ r2.1 ++ r3.1,
      ⟨r3.2.1, (r1.2.2.1.trans r2.2.2.1).trans r3.2.2.1,
        Nat.le_trans r3.2.2.2 (Nat.le_trans r2.2.2.2 r1.2.2.2)⟩)
termination_by es => (unwrittenCount db st, sizeOf es)
decreasing_by
  · exact Prod.Lex.right _ (by simp <;> omega)
  · rcases lt_or_eq_of_le r1.2.2.2 with hlt | heq
    · exact Prod.Lex.left _ _ hlt
    · rw [heq]; exact Prod.Lex.right _ (by simp <;> omega)
  · rcases lt_or_eq_of_le (Nat.le_trans r2.2.2.2 r1.2.2.2) with hlt | heq
    · exact Prod.Lex.left _ _ hlt
    · rw [heq]; exact Prod.Lex.right _ (by simp <;> omega)

/-- The `(slot_idx, value)` loop of a waif definition record. -/
def writeWaifPropsP (db : MooDatabase) (st : WaifTable) :
    (ps : List (Int × Value)) → Except String (WRes db st)
  | [] => pure ("", ⟨st, List.prefix_rfl, Nat.le_refl _⟩)
  | (slot, pv) :: rest => do
    let ss ← writeInt (.vint slot)
    let r1 ← writeValueP db st pv
    let r2 ← writeWaifPropsP db r1.2.1 rest
    pure (ss ++ db.line_ending ++ r1.1 ++ r2.1,
      ⟨r2.2.1, r1.2.2.1.trans r2.2.2.1, Nat.le_trans r2.2.2.2 r1.2.2.2⟩)
termination_by ps => (unwrittenCount db st, sizeOf ps)
decreasing_by
  · exact Prod.Lex.right _ (by simp <;> omega)
  · rcases lt_or_eq_of_le r1.2.2.2 with hlt | heq
    · exact Prod.Lex.left _ _ hlt
    · rw [heq]; exact Prod.Lex.right _ (by simp <;> omega)

/-- `Writer.writeWaif(waif_ref)`: a reference record when the original index
was seen before, otherwise a definition record under the next sequential
write index, registered in the table before its props are written so nested
references to the same waif resolve as references. -/
def writeWaifP (db : MooDatabase) (st : WaifTable) (originalIndex : Int) :
    Except String (WRes db st) :=
  match hno : List.lookup originalIndex st with
  | some writeIndex =>
    pure (writeString db ("r " ++ pyIntStr writeIndex) ++ writeString db ".",
      ⟨st, List.prefix_rfl, Nat.le_refl _⟩)
  | none =>
      let writeIndex : Int := Int.ofNat st.length
      let st1 : WaifTable := st ++ [(originalIndex, writeIndex)]
      match hw : List.lookup originalIndex db.waifs with
      | none => .error "KeyError: waif index not in db.waifs"
      | some w => do
        have hdec : unwrittenCount db st1 < unwrittenCount db st := by
          have hlkApp : ∀ (l t : WaifTable) (k v : Int),
              List.lookup k l = some v → List.lookup k (l ++ t) = some v := by
            intro l t k v h
            induction l with
            | nil => simp [List.lookup] at h
            | cons p rest ih =>
              obtain ⟨k1, v1⟩ := p
              rw [List.cons_append]
              rw [List.lookup_cons] at h ⊢
              cases hk : k == k1 with
              | true => rw [hk] at h; exact h
              | false => rw [hk] at h; exact ih h
          have hmemW : originalIndex ∈ db.waifs.map Prod.fst := by
            have hgen : ∀ (l : List (Int × Waif)),
                List.lookup originalIndex l = some w →
                originalIndex ∈ l.map Prod.fst := by
              intro l h
              induction l with
              | nil => simp [List.lookup] at h
              | cons p rest ih =>
                obtain ⟨k1, w1⟩ := p
                rw [List.lookup_cons] at h
                cases hk : originalIndex == k1 with
                | true =>
                  have heq : originalIndex = k1 := eq_of_beq hk
                  simp [heq]
                | false =>
                  rw [hk] at h
                  simpa using Or.inr (ih h)
            exact hgen _ hw
          have hmono : ∀ (p' q' : Int → Bool), (∀ k, p' k = true → q' k = true) →
              ∀ (xs : List Int), (xs.filter p').length ≤ (xs.filter q').length := by
            intro p' q' himp xs
            induction xs with
            | nil => simp
            | cons x t ih =>
              rw [List.filter_cons, List.filter_cons]
              cases hpx : p' x with
              | true => rw [himp x hpx]; simp; omega
              | false =>
                cases hqx : q' x <;> simp <;> omega
          have hstrict : ∀ (p' q' : Int → Bool), (∀ k, p' k = true → q' k = true) →
              ∀ (xs : List Int) (i : Int), i ∈ xs → q' i = true → p' i = false →
              (xs.filter p').length < (xs.filter q').length := by
            intro p' q' himp xs i hin hq hp
            induction xs with
            | nil => simp at hin
            | cons x t ih =>
              rcases List.mem_cons.mp hin with rfl | hint
              · rw [List.filter_cons, List.filter_cons, hp, hq]
                have := hmono p' q' himp t
                simp
                omega
              · rw [List.filter_cons, List.filter_cons]
                have hlt := ih hint
                cases hpx : p' x with
                | true => rw [himp x hpx]; simp; omega
                | false => cases hqx : q' x <;> simp <;> omega
          have himp : ∀ k, (List.lookup k st1).isNone = true →
              (List.lookup k st).isNone = true := by
            intro k hk
            cases hsk : List.lookup k st with
            | none => rfl
            | some v =>
              rw [show st1 = st ++ [(originalIndex, writeIndex)] from rfl] at hk
              rw [hlkApp st _ k v hsk] at hk
              simp at hk
          have hq : (List.lookup originalIndex st).isNone = true := by rw [hno]; rfl
          have hp : (List.lookup originalIndex st1).isNone = false := by
            have h2 : ∀ (l : WaifTable), List.lookup originalIndex l = none →
                List.lookup originalIndex (l ++ [(originalIndex, writeIndex)]) =
                  some writeIndex := by
              intro l h
              induction l with
              | nil => simp [List.lookup]
              | cons p rest ih =>
                obtain ⟨k1, v1⟩ := p
                rw [List.lookup_cons] at h
                rw [List.cons_append, List.lookup_cons]
                cases hk : originalIndex == k1 with
                | true => rw [hk] at h; simp at h
                | false => rw [hk] at h; exact ih h
            rw [show st1 = st ++ [(originalIndex, writeIndex)] from rfl, h2 st hno]
            rfl
          exact hstrict _ _ himp _ originalIndex hmemW hq hp
        let hdr := writeString db ("c " ++ pyIntStr writeIndex)
        let cs ← writeInt (.vint w.waif_class)
        let os ← writeInt (.vint w.owner)
        let ps ← writeInt (.vint w.propdefs_length)
        let r ← writeWaifPropsP db st1 w.props
        let ts ← writeInt (.vint (-1))
        pure (hdr ++ cs ++ db.line_ending ++ os ++ db.line_ending ++ ps ++
            db.line_ending ++ r.1 ++ ts ++ db.line_ending ++ writeString db ".",
          ⟨r.2.1, (List.prefix_append st [(originalIndex, writeIndex)]).trans r.2.2.1,
            Nat.le_trans r.2.2.2 (Nat.le_of_lt hdec)⟩)
termination_by (unwrittenCount db st, 0)
decreasing_by
  exact Prod.Lex.left _ _ hdec

end

/-- `Writer.writeValue` without the internal invariant: the written text and
the updated waif-interning table. -/
def writeValueS (db : MooDatabase) (st : WaifTable) (v : Value) :
    Except String (String × WaifTable) :=
  (writeValueP db st v).map fun r => (r.1, r.2.1)

/-- `Writer.writeWaif` without the internal invariant. -/
def writeWaifS (db : MooDatabase) (st : WaifTable) (originalIndex : Int) :
    Except String (String × WaifTable) :=
  (writeWaifP db st originalIndex).map fun r => (r.1, r.2.1)

/-- The parent-encoding block of `Writer.writeObject` (writer.py lines
345-356): no parents → `writeValue(ObjNum(-1))`; exactly one parent →
`writeValue(ObjNum(parents[0]))`; several → `writeValue([ObjNum(p) …])`. -/
def writeObjectParent (db : MooDatabase) (st : WaifTable) (obj : MooObject) :
    Except String (String × WaifTable) :=
  match obj.parents with
  | [] => writeValueS db st (.vobj (-1))
  | [p] => writeValueS db st (.vobj p)
  | ps => writeValueS db st (.vlist (ps.map .vobj))

/-- `Writer.writeVerbMetadata(verb)`: name line, then owner, perms, preps
each on its own line. -/
def writeVerbMetadata (db : MooDatabase) (v : Verb) : Except String String := do
  let o ← writeInt (.vint v.owner)
  let pe ← writeInt (.vint v.perms)
  let pr ← writeInt (.vint v.preps)
  .ok (writeString db v.name ++ o ++ db.line_ending ++ pe ++ db.line_ending ++
    pr ++ db.line_ending)

def writeVerbMetadatas (db : MooDatabase) : List Verb → Except String String
  | [] => .ok ""
  | v :: rest => do
    let a ← writeVerbMetadata db v
    let b ← writeVerbMetadatas db rest
    .ok (a ++ b)

/-- `writeCollection(obj.verbs, writer=writeVerbMetadata)` with no template:
count line then one metadata block per verb. -/
def writeVerbCollection (db : MooDatabase) (verbs : List Verb) :
    Except String String := do
  let c ← writeInt (.vint (Int.ofNat verbs.length))
  let body ← writeVerbMetadatas db verbs
  .ok (c ++ db.line_ending ++ body)

/-- `Writer.writeProperty(prop)`: typed value, then owner and perms lines. -/
def writeProperty (db : MooDatabase) (st : WaifTable) (p : Property) :
    Except String (String × WaifTable) := do
  let (vs, st') ← writeValueS db st p.value
  let o ← writeInt (.vint p.owner)
  let pe ← writeInt (.vint p.perms)
  .ok (vs ++ o ++ db.line_ending ++ pe ++ db.line_ending, st')

def writePropertiesVals (db : MooDatabase) (st : WaifTable) :
    List Property → Except String (String × WaifTable)
  | [] => .ok ("", st)
  | p :: rest => do
    let (a, st1) ← writeProperty db st p
    let (b, st2) ← writePropertiesVals db st1 rest
    .ok (a ++ b, st2)

/-- `Writer.write_properties(obj)`: propdefs count, the first
`propdefs_count` property names, total property count, then every property
value record. -/
def write_properties (db : MooDatabase) (st : WaifTable) (obj : MooObject) :
    Except String (String × WaifTable) := do
  let c1 ← writeInt (.vint (Int.ofNat obj.propdefs_count))
  let names := strConcat
    ((obj.properties.take obj.propdefs_count).map fun p => writeString db p.propertyName)
  let c2 ← writeInt (.vint (Int.ofNat obj.properties.length))
  let (vals, st') ← writePropertiesVals db st obj.properties
  .ok (c1 ++ db.line_ending ++ names ++ c2 ++ db.line_ending ++ vals, st')

/-- `Writer.writeObject(obj)`: id header, name, flags, owner, typed location,
typed last-move, typed contents, the parent block, typed children, the verb
metadata collection, then properties. -/
def writeObject (db : MooDatabase) (st : WaifTable) (obj : MooObject) :
    Except String (String × WaifTable) := do
  let s3 ← writeInt (.vint obj.flags)
  let s4 ← writeInt (.vint obj.owner)
  let (s5, st5) ← writeValueS db st obj.location
  let (s6, st6) ← writeValueS db st5 obj.last_move
  let (s7, st7) ← writeValueS db st6 (.vlist (obj.contents.map .vobj))
  let (s8, st8) ← writeObjectParent db st7 obj
  let (s9, st9) ← writeValueS db st8 (.vlist (obj.children.map .vobj))
  let s10 ← writeVerbCollection db obj.verbs
  let (s11, st11) ← write_properties db st9 obj
  .ok (writeString db ("#" ++ pyIntStr obj.id) ++ writeString db obj.name ++
    s3 ++ db.line_ending ++ s4 ++ db.line_ending ++ s5 ++ s6 ++ s7 ++ s8 ++
    s9 ++ s10 ++ s11, st11)

/-- `MooDatabase.all_verbs()`: every object's verbs, in object insertion
order then verb order. -/
def all_verbs (db : MooDatabase) : List Verb :=
  (db.objects.map fun p => p.2.verbs).flatten

/-- `Writer.writeCode(code)`: each code line, then a lone `.` line. -/
def writeCode (db : MooDatabase) (code : List String) : String :=
  strConcat (code.map (writeString db)) ++ writeString db "."

/-- `Writer.writeVerb(verb)`: the `#<object>:<verb-index>` locator line (the
index is the position of the verb in its object's verb list, by equality)
followed by the code body.  A missing object is Python's `KeyError`, a verb
not present on its object `ValueError`; `verb.code is None` would make
`writeCode` iterate `None` (`TypeError`) — `writeVerbs` never passes one. -/
def writeVerb (db : MooDatabase) (verb : Verb) : Except String String :=
  match List.lookup verb.object db.objects with
  | none => .error "KeyError: object"
  | some o =>
    match o.verbs.findIdx? (fun v' => v' == verb) with
    | none => .error "ValueError: verb not in list"
    | some idx =>
      match verb.code with
      | none => .error "TypeError: code is None"
      | some c =>
        .ok (writeString db ("#" ++ pyIntStr verb.object ++ ":" ++ pyIntStr (Int.ofNat idx)) ++
          writeCode db c)

def writeVerbList (db : MooDatabase) : List Verb → Except String String
  | [] => .ok ""
  | v :: rest => do
    let a ← writeVerb db v
    let b ← writeVerbList db rest
    .ok (a ++ b)

/-- `Writer.writeVerbs()`: count of verbs whose code is present (`None` = no
program, `[]` = empty program), then one body per counted verb. -/
def writeVerbs (db : MooDatabase) : Except String String := do
  let verbs_with_programs := (all_verbs db).filter fun v => v.code.isSome
  let c ← writeInt (.vint (Int.ofNat verbs_with_programs.length))
  let body ← writeVerbList db verbs_with_programs
  .ok (c ++ db.line_ending ++ body)

/-! ## Well-formedness of whole databases

`dbValuesOk` says every value the comparator touches is free of duplicate map
keys — true of any database built from real Python dicts. -/

def objectValuesOk (o : MooObject) : Bool :=
  noDupMapKeys o.location && noDupMapKeys o.last_move &&
    o.properties.all fun p => noDupMapKeys p.value

def dbValuesOk (db : MooDatabase) : Bool :=
  (db.objects.all fun p => objectValuesOk p.2) &&
    db.waifs.all fun p => p.2.props.all fun sv => noDupMapKeys sv.2

/-! ## Concrete fixtures used by counterexamples and witnesses -/

def dbEmpty : MooDatabase :=
  ⟨"** LambdaMOO Database, Format Version 17 **", 17, 0, [], [], [], [], [], "\n"⟩

/-- An object with no parents (for the parent-encoding counterexample). -/
def objNoParents : MooObject :=
  ⟨0, "root", 0, -1, .vobj (-1), [], [], .vobj (-1), [], [], [], 0, false⟩

/-- The waif of spec §8's concrete scenario: class 1641, owner 2. -/
def waif1641 : Waif := ⟨1641, 2, [], 0⟩

def dbWithWaif : MooDatabase :=
  { dbEmpty with waifs := [(0, waif1641)] }

def verbNoCode : Verb := ⟨"foo", 2, 0, 0, 0, none⟩

def verbEmptyCode : Verb := ⟨"bar", 2, 0, 0, 0, some []⟩

def objWithVerbs : MooObject :=
  ⟨0, "sys", 0, -1, .vobj (-1), [], [], .vobj (-1), [], [verbNoCode, verbEmptyCode], [], 0, false⟩

def dbWithVerbs : MooDatabase :=
  { dbEmpty with objects := [(0, objWithVerbs)] }

/-- The exact rational value of the IEEE-754 double nearest `0.1`
(`3602879701896397 * 2⁻⁵⁵`). -/
def q01 : ℚ := Rat.divInt 3602879701896397 36028797018963968

/-- Significant digits of a formatted numeric token: its digit characters
before any exponent marker, with leading zeros dropped. -/
def sigDigitCount (s : String) : Nat :=
  (((s.data.takeWhile fun c => c ≠ 'e').filter fun c => c.isDigit).dropWhile
    fun c => c = '0').length

/-! # Theorems -/


set_option maxRecDepth 100000

theorem digitChar_ne_newline (n : Nat) (h : n < 10) : digitChar n ≠ '\n' := by
  interval_cases n <;> decide

theorem natDigitsAux_ne_newline (fuel n : Nat) :
    ∀ c ∈ natDigitsAux fuel n, c ≠ '\n' := by
  induction fuel generalizing n with
  | zero => intro c hc; simp [natDigitsAux] at hc
  | succ fuel ih =>
    intro c hc
    rw [natDigitsAux] at hc
    split at hc
    · next h =>
      simp at hc
      exact hc ▸ digitChar_ne_newline n h
    · next h =>
      rcases List.mem_append.mp hc with h1 | h1
      · exact ih _ c h1
      · simp at h1
        exact h1 ▸ digitChar_ne_newline (n % 10) (Nat.mod_lt n (by omega))

theorem pyIntStr_ne_newline (n : Int) : ∀ c ∈ (pyIntStr n).data, c ≠ '\n' := by
  cases n with
  | ofNat m =>
    intro c hc
    exact natDigitsAux_ne_newline _ _ c hc
  | negSucc m =>
    intro c hc
    rcases List.mem_cons.mp hc with rfl | h1
    · decide
    · exact natDigitsAux_ne_newline _ _ c h1

/-- C9: `Writer.writeInt` raises `TypeError` on any `bool` (writing nothing),
and for non-bool integer kinds writes Python's decimal rendering of the value
with no trailing newline (the output contains no newline character at all). -/
theorem writeInt_bool_guard :
    (∀ b : Bool,
      writeInt (.vbool b) = .error "TypeError: writeInt() does not accept bool values") ∧
    (∀ n : Int,
      writeInt (.vint n) = .ok (pyIntStr n) ∧
      writeInt (.vobj n) = .ok (pyIntStr n) ∧
      writeInt (.verr n) = .ok (pyIntStr n) ∧
      writeInt (.vcatch n) = .ok (pyIntStr n) ∧
      writeInt (.vfinally n) = .ok (pyIntStr n) ∧
      writeInt (.vanon n) = .ok (pyIntStr n) ∧
      ∀ c ∈ (pyIntStr n).data, c ≠ '\n') := by
  refine ⟨fun b => rfl, fun n => ⟨rfl, rfl, rfl, rfl, rfl, rfl, pyIntStr_ne_newline n⟩⟩

/-- C9 witness: concrete instantiation at `b = true` and `n = -7`. -/
theorem writeInt_bool_guard_witness :
    ('-' ∈ (pyIntStr (-7)).data) ∧ '-' ≠ '\n' :=
  ⟨by decide, (writeInt_bool_guard.2 (-7)).2.2.2.2.2.2 '-' (by decide)⟩

/-- C5 counterexample: the float `1.0` is encoded by `writeFloat` as the
token `"1"`, which has one significant digit, not at least 19: `%.19g`
strips trailing zeros, so the universal 19-digit-minimum claim fails. -/
theorem writeFloat_19digits_counterexample :
    writeFloat (1 : ℚ) = "1" ∧ ¬ (19 ≤ sigDigitCount (writeFloat (1 : ℚ))) :=
  ⟨by decide, by decide⟩

/-- C5 (amended): `writeFloat` formats with `%.19g` — general formatting at
precision 19, so a token carries at most 19 significant digits and trailing
zeros are stripped (`1.0` gives `"1"`); encoding `0.1` (the double
`3602879701896397 * 2⁻⁵⁵`) produces a token with exactly 19 significant
digits, `"0.1000000000000000056"`. -/
theorem writeFloat_digits_amended :
    writeFloat q01 = "0.1000000000000000056" ∧
    sigDigitCount (writeFloat q01) = 19 ∧
    writeFloat (1 : ℚ) = "1" ∧ sigDigitCount (writeFloat (1 : ℚ)) = 1 :=
  ⟨by decide, by decide, by decide, by decide⟩

/-- C4: a plain integer and an object reference holding the same numeric
value compare as exactly one type-mismatch difference (never equal, never a
value-changed difference), in both orientations. -/
theorem compare_values_int_objnum_mismatch (p : DiffPath) (n : Int) :
    compare_values p (.vint n) (.vobj n) =
      .ok [⟨p, .typeMismatch, .ty "int", .ty "ObjNum"⟩] ∧
    compare_values p (.vobj n) (.vint n) =
      .ok [⟨p, .typeMismatch, .ty "ObjNum", .ty "int"⟩] := by
  constructor <;> (unfold compare_values; simp [isNoneV, pyTypeName])

/-- C7: two floats compare equal exactly when within relative tolerance 1e-9
or absolute tolerance 1e-12 (`math.isclose` with those tolerances), and
otherwise produce exactly one value-changed difference. -/
theorem compare_values_float_tolerance (p : DiffPath) (x y : ℚ) :
    compare_values p (.vfloat x) (.vfloat y) =
      .ok (if |x - y| ≤ 1 / 1000000000 * max |x| |y| ∨ |x - y| ≤ 1 / 1000000000000
        then []
        else [⟨p, .valueChanged, .v (.vfloat x), .v (.vfloat y)⟩]) := by
  unfold compare_values
  have h : (mathIsClose x y = true) ↔
      (|x - y| ≤ 1 / 1000000000 * max |x| |y| ∨ |x - y| ≤ 1 / 1000000000000) := by
    simp [mathIsClose, le_max_iff]
  simp only [isNoneV, pyTypeName, Bool.and_self, Bool.false_and, Bool.and_false,
    Bool.false_or, Bool.or_false, ne_eq, not_true_eq_false, not_false_eq_true,
    if_false, if_true, ite_false, ite_true]
  by_cases hm : mathIsClose x y = true
  · rw [if_pos hm, if_pos (h.mp hm)]
    simp
  · rw [if_neg hm, if_neg (fun hcc => hm (h.mpr hcc))]
    simp

/-- C10: when both compared values are `None` the result is empty; when
exactly one side is `None`, the result is a single value-changed difference
(not a type mismatch, although the runtime types differ). -/
theorem compare_values_none_handling (p : DiffPath) :
    compare_values p .vnone .vnone = .ok [] ∧
    (∀ v : Value, v ≠ .vnone →
      compare_values p .vnone v = .ok [⟨p, .valueChanged, .v .vnone, .v v⟩] ∧
      compare_values p v .vnone = .ok [⟨p, .valueChanged, .v v, .v .vnone⟩]) := by
  refine ⟨by unfold compare_values; simp [isNoneV], fun v hv => ⟨?_, ?_⟩⟩ <;>
    (unfold compare_values; cases v <;> simp [isNoneV] at hv ⊢)

/-- C10 witness: concrete instantiation at `v = 5`. -/
theorem compare_values_none_handling_witness :
    ((Value.vint 5) ≠ .vnone) ∧
    compare_values DiffPath.root .vnone (.vint 5) =
      .ok [⟨DiffPath.root, .valueChanged, .v .vnone, .v (.vint 5)⟩] :=
  ⟨fun h => Value.noConfusion h,
    ((compare_values_none_handling DiffPath.root).2 (.vint 5)
      (fun h => Value.noConfusion h)).1⟩




theorem except_bind_ok {α β ε : Type} (x : α) (k : α → Except ε β) :
    (Except.ok x >>= k : Except ε β) = k x := rfl

theorem except_map_ok {α β ε : Type} (x : α) (f : α → β) :
    (Except.ok x : Except ε α).map f = .ok (f x) := rfl

theorem writeValueP_vobj (db : MooDatabase) (st : WaifTable) (n : Int) :
    writeValueP db st (.vobj n) =
      .ok (pyIntStr MooTypes.OBJ ++ db.line_ending ++ pyIntStr n ++ db.line_ending,
        ⟨st, List.prefix_rfl, Nat.le_refl _⟩) := by
  rw [writeValueP]
  rfl

theorem writeItemsP_vobjs (db : MooDatabase) (st : WaifTable) (l : List Int) :
    writeItemsP db st (l.map .vobj) =
      .ok (strConcat (l.map fun p =>
            pyIntStr MooTypes.OBJ ++ db.line_ending ++ pyIntStr p ++ db.line_ending),
        ⟨st, List.prefix_rfl, Nat.le_refl _⟩) := by
  induction l with
  | nil => rw [List.map_nil, writeItemsP]; rfl
  | cons p rest ih =>
    rw [List.map_cons, writeItemsP, writeValueP_vobj, except_bind_ok]
    simp only [List.map_cons, strConcat]
    simp [ih, except_bind_ok, String.append_assoc]

theorem writeValueS_vobj (db : MooDatabase) (st : WaifTable) (n : Int) :
    writeValueS db st (.vobj n) =
      .ok (pyIntStr MooTypes.OBJ ++ db.line_ending ++ pyIntStr n ++ db.line_ending, st) := by
  rw [writeValueS, writeValueP_vobj, except_map_ok]

theorem writeValueS_vlist_objs (db : MooDatabase) (st : WaifTable) (l : List Int) :
    writeValueS db st (.vlist (l.map .vobj)) =
      .ok (pyIntStr MooTypes.LIST ++ db.line_ending ++
        pyIntStr (Int.ofNat l.length) ++ db.line_ending ++
        strConcat (l.map fun p =>
          pyIntStr MooTypes.OBJ ++ db.line_ending ++ pyIntStr p ++ db.line_ending), st) := by
  rw [writeValueS, writeValueP]
  rw [show writeInt (.vint MooTypes.LIST) = Except.ok (pyIntStr MooTypes.LIST) from rfl,
    except_bind_ok]
  rw [show writeInt (.vint (Int.ofNat (List.map Value.vobj l).length)) =
    Except.ok (pyIntStr (Int.ofNat l.length)) from by simp [writeInt]]
  rw [except_bind_ok, writeItemsP_vobjs, except_bind_ok]
  rfl

/-- C1 (amended): the parent field of `writeObject` is encoded as a single
typed object-reference both when the object has exactly one parent (that
parent) and when it has none (`#-1`); only two or more parents are encoded
as a typed sequence of object-references.  The waif-interning table is
untouched. -/
theorem writeObjectParent_amended (db : MooDatabase) (st : WaifTable) (obj : MooObject) :
    writeObjectParent db st obj =
      .ok ((match obj.parents with
        | [] => pyIntStr MooTypes.OBJ ++ db.line_ending ++ pyIntStr (-1) ++ db.line_ending
        | [p] => pyIntStr MooTypes.OBJ ++ db.line_ending ++ pyIntStr p ++ db.line_ending
        | ps => pyIntStr MooTypes.LIST ++ db.line_ending ++
            pyIntStr (Int.ofNat ps.length) ++ db.line_ending ++
            strConcat (ps.map fun p =>
              pyIntStr MooTypes.OBJ ++ db.line_ending ++ pyIntStr p ++ db.line_ending)), st) := by
  rw [writeObjectParent]
  rcases hp : obj.parents with _ | ⟨p, _ | ⟨p2, rest⟩⟩
  · simp only [writeValueS_vobj]
  · simp only [writeValueS_vobj]
  · simp only [writeValueS_vlist_objs]

/-- C1 counterexample: for an object with zero parents, the parent field is
not a typed sequence of object-references — the writer emits the single
typed object-reference `#-1` instead. -/
theorem writeObjectParent_claim_counterexample :
    writeObjectParent dbEmpty [] objNoParents ≠
      writeValueS dbEmpty [] (.vlist (objNoParents.parents.map .vobj)) := by
  rw [show objNoParents.parents = [] from rfl]
  rw [writeObjectParent_amended]
  rw [show objNoParents.parents = [] from rfl]
  rw [show ([] : List Int).map Value.vobj = ([] : List Int).map Value.vobj from rfl,
    writeValueS_vlist_objs]
  intro h
  have h1 := (Prod.mk.injEq _ _ _ _).mp (Except.ok.inj h)
  have h2 := h1.1
  simp only [dbEmpty, MooTypes.OBJ, MooTypes.LIST, strConcat] at h2
  exact absurd h2 (by decide)

theorem lookup_append_of_some {α β : Type} [BEq α] {l t : List (α × β)} {k : α} {v : β}
    (h : List.lookup k l = some v) : List.lookup k (l ++ t) = some v := by
  induction l with
  | nil => simp [List.lookup] at h
  | cons p rest ih =>
    obtain ⟨k1, v1⟩ := p
    rw [List.cons_append]
    rw [List.lookup_cons] at h ⊢
    cases hk : k == k1 with
    | true => rw [hk] at h; exact h
    | false => rw [hk] at h; exact ih h

theorem lookup_append_self {α β : Type} [BEq α] [LawfulBEq α] {l : List (α × β)} {k : α}
    (x : β) (h : List.lookup k l = none) : List.lookup k (l ++ [(k, x)]) = some x := by
  induction l with
  | nil => simp [List.lookup]
  | cons p rest ih =>
    obtain ⟨k1, v1⟩ := p
    rw [List.lookup_cons] at h
    rw [List.cons_append, List.lookup_cons]
    cases hk : k == k1 with
    | true => rw [hk] at h; simp at h
    | false => rw [hk] at h; exact ih h

theorem lookup_of_prefix {α β : Type} [BEq α] {l l' : List (α × β)} {k : α} {v : β}
    (h : l <+: l') (hl : List.lookup k l = some v) : List.lookup k l' = some v := by
  obtain ⟨t, rfl⟩ := h
  exact lookup_append_of_some hl

theorem writeWaifS_seen (db : MooDatabase) (st : WaifTable) (i wi : Int)
    (hst : List.lookup i st = some wi) :
    writeWaifS db st i =
      .ok (writeString db ("r " ++ pyIntStr wi) ++ writeString db ".", st) := by
  rw [writeWaifS, writeWaifP]
  split
  · next wi' heq =>
    rw [hst] at heq
    have : wi = wi' := by injection heq
    subst this
    rfl
  · next heq => rw [hst] at heq; exact absurd heq (by simp)

theorem writeWaifS_not_seen (db : MooDatabase) (st : WaifTable) (i : Int) (w : Waif)
    (hst : List.lookup i st = none) (hw : List.lookup i db.waifs = some w) :
    writeWaifS db st i =
      (writeWaifPropsP db (st ++ [(i, Int.ofNat st.length)]) w.props).map
        (fun r => (writeString db ("c " ++ pyIntStr (Int.ofNat st.length)) ++
          pyIntStr w.waif_class ++ db.line_ending ++
          pyIntStr w.owner ++ db.line_ending ++
          pyIntStr w.propdefs_length ++ db.line_ending ++
          r.1 ++ pyIntStr (-1) ++ db.line_ending ++ writeString db ".", r.2.1)) := by
  rw [writeWaifS, writeWaifP]
  split
  · next wi heq => rw [hst] at heq; exact absurd heq (by simp)
  · next heq =>
    split
    · next heq2 => rw [hw] at heq2; exact absurd heq2 (by simp)
    · next w' heq2 =>
      rw [hw] at heq2
      have hww : w = w' := by injection heq2
      subst hww
      split
      · next heq3 => exact absurd heq3 (fun hc => by simp at hc)
      · next w2 heq3 =>
        have hww2 : w = w2 := by injection heq3
        subst hww2
        change Except.map _ (Bind.bind
          (writeWaifPropsP db (st ++ [(i, Int.ofNat (List.length st))]) w.props) _) =
          Except.map _ (writeWaifPropsP db (st ++ [(i, Int.ofNat (List.length st))]) w.props)
        cases hprops : writeWaifPropsP db (st ++ [(i, Int.ofNat st.length)]) w.props with
        | error e => rfl
        | ok r => rfl

/-- C3: within one writer session, writing the same waif twice emits first a
definition record (header `c widx` with the next sequential write index, class,
owner, propdefs-length, the props payload, the `-1` sentinel and the `.` end
marker) and then a reference record consisting of exactly the header `r widx`
naming the index assigned at the first encounter and the `.` end marker, with
no data payload; the table maps the original index to `widx` after the first
write, and the reference write leaves the table unchanged. -/
theorem writeWaif_twice_def_then_ref (db : MooDatabase) (st : WaifTable)
    (i : Int) (w : Waif)
    (hst : List.lookup i st = none) (hw : List.lookup i db.waifs = some w)
    (out1 out2 : String) (st1 st2 : WaifTable)
    (h1 : writeWaifS db st i = .ok (out1, st1))
    (h2 : writeWaifS db st1 i = .ok (out2, st2)) :
    (∃ propsOut,
      out1 = writeString db ("c " ++ pyIntStr (Int.ofNat st.length)) ++
        pyIntStr w.waif_class ++ db.line_ending ++
        pyIntStr w.owner ++ db.line_ending ++
        pyIntStr w.propdefs_length ++ db.line_ending ++
        propsOut ++
        pyIntStr (-1) ++ db.line_ending ++ writeString db ".") ∧
    List.lookup i st1 = some (Int.ofNat st.length) ∧
    out2 = writeString db ("r " ++ pyIntStr (Int.ofNat st.length)) ++ writeString db "." ∧
    st2 = st1 := by
  rw [writeWaifS_not_seen db st i w hst hw] at h1
  cases hprops : writeWaifPropsP db (st ++ [(i, Int.ofNat st.length)]) w.props with
  | error e => rw [hprops] at h1; exact absurd h1 (by simp [Except.map])
  | ok r =>
    rw [hprops] at h1
    simp only [Except.map] at h1
    have hinj := Except.ok.inj h1
    have hout := congrArg Prod.fst hinj
    have hst1 := congrArg Prod.snd hinj
    simp only at hout hst1
    have hlk : List.lookup i st1 = some (Int.ofNat st.length) := by
      rw [← hst1]
      exact lookup_of_prefix r.2.2.1 (lookup_append_self _ hst)
    rw [writeWaifS_seen db st1 i (Int.ofNat st.length) hlk] at h2
    have hinj2 := Except.ok.inj h2
    have hout2 := congrArg Prod.fst hinj2
    have hst2 := congrArg Prod.snd hinj2
    simp only at hout2 hst2
    exact ⟨⟨r.1, hout.symm⟩, hlk, hout2.symm, hst2.symm⟩

theorem writeWaif_twice_def_then_ref_witness :
    (∃ propsOut, "c 0\n1641\n2\n0\n-1\n.\n" =
      writeString dbWithWaif ("c " ++ pyIntStr 0) ++
      pyIntStr waif1641.waif_class ++ dbWithWaif.line_ending ++
      pyIntStr waif1641.owner ++ dbWithWaif.line_ending ++
      pyIntStr waif1641.propdefs_length ++ dbWithWaif.line_ending ++
      propsOut ++ pyIntStr (-1) ++ dbWithWaif.line_ending ++
      writeString dbWithWaif ".") ∧
    List.lookup (0 : Int) [((0 : Int), (0 : Int))] = some 0 ∧
    "r 0\n.\n" = writeString dbWithWaif ("r " ++ pyIntStr 0) ++ writeString dbWithWaif "." ∧
    [((0 : Int), (0 : Int))] = [((0 : Int), (0 : Int))] :=
  writeWaif_twice_def_then_ref dbWithWaif [] 0 waif1641 rfl rfl
    "c 0\n1641\n2\n0\n-1\n.\n" "r 0\n.\n"
    [((0 : Int), (0 : Int))] [((0 : Int), (0 : Int))]
    (by rw [writeWaifS_not_seen dbWithWaif [] 0 waif1641 rfl rfl,
          show waif1641.props = ([] : List (Int × Value)) from rfl, writeWaifPropsP]
        rfl)
    (writeWaifS_seen dbWithWaif [((0 : Int), (0 : Int))] 0 0 rfl)

theorem except_bind_error {ε α β : Type} (e : ε) (f : α → Except ε β) :
    (Except.error e >>= f : Except ε β) = Except.error e := rfl

theorem writeVerbList_entries (db : MooDatabase) : ∀ (vs : List Verb) (body : String),
    writeVerbList db vs = .ok body →
    ∃ entries : List String, body = strConcat entries ∧
      entries.length = vs.length ∧
      ∀ pe ∈ entries.zip vs, ∃ o idx c,
        List.lookup pe.2.object db.objects = some o ∧
        o.verbs.findIdx? (fun v' => v' == pe.2) = some idx ∧
        pe.2.code = some c ∧
        pe.1 = writeString db ("#" ++ pyIntStr pe.2.object ++ ":" ++
          pyIntStr (Int.ofNat idx)) ++
          strConcat (c.map (writeString db)) ++ writeString db "." := by
  intro vs
  induction vs with
  | nil =>
    intro body h
    rw [writeVerbList] at h
    refine ⟨[], ?_, rfl, by simp⟩
    exact (Except.ok.inj h).symm
  | cons v rest ih =>
    intro body h
    rw [writeVerbList] at h
    cases hv : writeVerb db v with
    | error e => rw [hv, except_bind_error] at h; exact absurd h (by simp)
    | ok a =>
      rw [hv, except_bind_ok] at h
      cases hrest : writeVerbList db rest with
      | error e => rw [hrest, except_bind_error] at h; exact absurd h (by simp)
      | ok b =>
        rw [hrest, except_bind_ok] at h
        obtain ⟨entries, hb, hlen, hall⟩ := ih b hrest
        rw [writeVerb] at hv
        split at hv
        · exact absurd hv (by simp)
        · next o ho =>
          split at hv
          · exact absurd hv (by simp)
          · next idx hidx =>
            split at hv
            · exact absurd hv (by simp)
            · next c hc =>
              refine ⟨a :: entries, ?_, by simp [hlen], ?_⟩
              · rw [show strConcat (a :: entries) = a ++ strConcat entries from rfl,
                  ← hb]
                exact (Except.ok.inj h).symm
              · intro pe hpe
                rw [List.zip_cons_cons, List.mem_cons] at hpe
                rcases hpe with rfl | hpe
                · refine ⟨o, idx, c, ho, hidx, hc, ?_⟩
                  show a = writeString db ("#" ++ pyIntStr v.object ++ ":" ++
                    pyIntStr (Int.ofNat idx)) ++
                    strConcat (c.map (writeString db)) ++ writeString db "."
                  rw [← Except.ok.inj hv, writeCode]
                  exact (String.append_assoc _ _ _).symm
                · exact hall pe hpe

/-- C6: `writeVerbs` writes a count equal to the number of verbs in the
database whose code is present (not None) and emits one body per counted
verb: a verb with absent code contributes neither to the count nor an entry,
while a verb with present code contributes an entry consisting of its
`#object:verb-index` locator line, its code lines (zero of them when the
program is present but empty) and the lone `.` terminator line. -/
theorem writeVerbs_code_presence (db : MooDatabase) (out : String)
    (h : writeVerbs db = .ok out) :
    ∃ entries : List String,
      out = pyIntStr (Int.ofNat (((all_verbs db).filter fun v =>
          v.code.isSome).length)) ++ db.line_ending ++ strConcat entries ∧
      entries.length = ((all_verbs db).filter fun v => v.code.isSome).length ∧
      ∀ pe ∈ entries.zip ((all_verbs db).filter fun v => v.code.isSome),
        ∃ o idx c,
          List.lookup pe.2.object db.objects = some o ∧
          o.verbs.findIdx? (fun v' => v' == pe.2) = some idx ∧
          pe.2.code = some c ∧
          pe.1 = writeString db ("#" ++ pyIntStr pe.2.object ++ ":" ++
            pyIntStr (Int.ofNat idx)) ++
            strConcat (c.map (writeString db)) ++ writeString db "." := by
  rw [writeVerbs] at h
  rw [show writeInt (.vint (Int.ofNat (((all_verbs db).filter fun v =>
      v.code.isSome).length))) = Except.ok (pyIntStr (Int.ofNat
      (((all_verbs db).filter fun v => v.code.isSome).length))) from rfl,
    except_bind_ok] at h
  cases hb : writeVerbList db ((all_verbs db).filter fun v => v.code.isSome) with
  | error e => rw [hb, except_bind_error] at h; exact absurd h (by simp)
  | ok body =>
    rw [hb, except_bind_ok] at h
    obtain ⟨entries, hbody, hlen, hall⟩ := writeVerbList_entries db _ _ hb
    exact ⟨entries, by rw [← Except.ok.inj h, hbody], hlen, hall⟩

theorem writeVerbs_code_presence_witness :
    ∃ entries : List String,
      "1\n#0:1\n.\n" = pyIntStr (Int.ofNat (((all_verbs dbWithVerbs).filter fun v =>
          v.code.isSome).length)) ++ dbWithVerbs.line_ending ++ strConcat entries ∧
      entries.length = ((all_verbs dbWithVerbs).filter fun v => v.code.isSome).length ∧
      ∀ pe ∈ entries.zip ((all_verbs dbWithVerbs).filter fun v => v.code.isSome),
        ∃ o idx c,
          List.lookup pe.2.object dbWithVerbs.objects = some o ∧
          o.verbs.findIdx? (fun v' => v' == pe.2) = some idx ∧
          pe.2.code = some c ∧
          pe.1 = writeString dbWithVerbs ("#" ++ pyIntStr pe.2.object ++ ":" ++
            pyIntStr (Int.ofNat idx)) ++
            strConcat (c.map (writeString dbWithVerbs)) ++ writeString dbWithVerbs "." :=
  writeVerbs_code_presence dbWithVerbs "1\n#0:1\n.\n" rfl

theorem mem_insertAfterLe {α : Type} (le : α → α → Bool) (y : α) :
    ∀ (l : List α) (x : α), x ∈ insertAfterLe le y l → x = y ∨ x ∈ l := by
  intro l
  induction l with
  | nil => intro x hx; rw [insertAfterLe] at hx; simp at hx; exact Or.inl hx
  | cons z zs ih =>
    intro x hx
    rw [insertAfterLe] at hx
    split at hx
    · rcases List.mem_cons.mp hx with rfl | hx2
      · exact Or.inr (List.mem_cons_self _ _)
      · rcases ih x hx2 with h | h
        · exact Or.inl h
        · exact Or.inr (List.mem_cons_of_mem _ h)
    · rcases List.mem_cons.mp hx with rfl | hx2
      · exact Or.inl rfl
      · exact Or.inr hx2

theorem mem_pySorted_aux {α : Type} (le : α → α → Bool) :
    ∀ (l acc : List α) (x : α),
      x ∈ l.foldl (fun acc x => insertAfterLe le x acc) acc → x ∈ acc ∨ x ∈ l := by
  intro l
  induction l with
  | nil => intro acc x hx; exact Or.inl hx
  | cons z zs ih =>
    intro acc x hx
    rw [List.foldl_cons] at hx
    rcases ih _ x hx with h | h
    · rcases mem_insertAfterLe le z _ x h with rfl | h2
      · exact Or.inr (List.mem_cons_self _ _)
      · exact Or.inl h2
    · exact Or.inr (List.mem_cons_of_mem _ h)

theorem mem_pySorted {α : Type} (le : α → α → Bool) (l : List α) (x : α)
    (hx : x ∈ pySorted le l) : x ∈ l := by
  rcases mem_pySorted_aux le l [] x hx with h | h
  · simp at h
  · exact h

theorem lookup_mem {α β : Type} [BEq α] [LawfulBEq α] :
    ∀ (l : List (α × β)) (k : α) (v : β), List.lookup k l = some v → (k, v) ∈ l := by
  intro l
  induction l with
  | nil => intro k v h; simp [List.lookup] at h
  | cons p rest ih =>
    intro k v h
    obtain ⟨k1, v1⟩ := p
    rw [List.lookup_cons] at h
    cases hk : k == k1 with
    | true =>
      rw [hk] at h
      have hkk : k = k1 := eq_of_beq hk
      have hv : v1 = v := by injection h
      subst hkk hv
      exact List.mem_cons_self _ _
    | false =>
      rw [hk] at h
      exact List.mem_cons_of_mem _ (ih k v h)

theorem lookup_isSome_of_mem_keys {α β : Type} [BEq α] [LawfulBEq α] :
    ∀ (l : List (α × β)) (k : α), k ∈ l.map Prod.fst →
      (List.lookup k l).isSome = true := by
  intro l
  induction l with
  | nil => intro k hk; simp at hk
  | cons p rest ih =>
    intro k hk
    obtain ⟨k1, v1⟩ := p
    rw [List.lookup_cons]
    cases hbk : k == k1 with
    | true => simp
    | false =>
      rw [List.map_cons, List.mem_cons] at hk
      rcases hk with rfl | hk2
      · simp at hbk
      · exact ih k hk2

theorem pyLookup_mem : ∀ (l : List (Value × Value)) (k v : Value),
    pyLookup l k = some v → ∃ k', (k', v) ∈ l := by
  intro l
  induction l with
  | nil => intro k v h; simp [pyLookup] at h
  | cons p rest ih =>
    intro k v h
    obtain ⟨k1, v1⟩ := p
    rw [pyLookup] at h
    split at h
    · have hv : v1 = v := by injection h
      subst hv
      exact ⟨k1, List.mem_cons_self _ _⟩
    · obtain ⟨k', hk'⟩ := ih k v h
      exact ⟨k', List.mem_cons_of_mem _ hk'⟩

theorem mem_dedupIntsAux : ∀ (l acc : List Int) (x : Int),
    x ∈ dedupIntsAux l acc → x ∈ l ∨ x ∈ acc := by
  intro l
  induction l with
  | nil => intro acc x hx; rw [dedupIntsAux] at hx; simp at hx; exact Or.inr hx
  | cons z zs ih =>
    intro acc x hx
    rw [dedupIntsAux] at hx
    split at hx
    · rcases ih _ x hx with h | h
      · exact Or.inl (List.mem_cons_of_mem _ h)
      · exact Or.inr h
    · rcases ih _ x hx with h | h
      · exact Or.inl (List.mem_cons_of_mem _ h)
      · rcases List.mem_cons.mp h with rfl | h2
        · exact Or.inl (List.mem_cons_self _ _)
        · exact Or.inr h2

theorem mem_dedupInts (l : List Int) (x : Int) (hx : x ∈ dedupInts l) : x ∈ l := by
  rcases mem_dedupIntsAux l [] x hx with h | h
  · exact h
  · simp at h

theorem pyIn_of_mem_keys : ∀ (l : List (Value × Value)) (k : Value),
    k ∈ l.map Prod.fst → pyEq k k = true → pyIn l k = true := by
  intro l
  induction l with
  | nil => intro k hk _; simp at hk
  | cons p rest ih =>
    intro k hk hrefl
    obtain ⟨k1, v1⟩ := p
    rw [pyIn, pyLookup]
    by_cases he : pyEq k k1 = true
    · rw [if_pos he]; rfl
    · rw [if_neg he]
      rw [List.map_cons, List.mem_cons] at hk
      rcases hk with rfl | hk2
      · exact absurd hrefl he
      · exact ih k hk2 hrefl

theorem noDupList_mem : ∀ (l : List Value), noDupList l = true →
    ∀ x ∈ l, noDupMapKeys x = true := by
  intro l
  induction l with
  | nil => intro _ x hx; simp at hx
  | cons z zs ih =>
    intro h x hx
    rw [noDupList] at h
    rw [Bool.and_eq_true] at h
    rcases List.mem_cons.mp hx with rfl | hx2
    · exact h.1
    · exact ih h.2 x hx2

theorem noDupPairs_mem : ∀ (l : List (Value × Value)), noDupPairs l = true →
    ∀ e ∈ l, noDupMapKeys e.1 = true ∧ noDupMapKeys e.2 = true := by
  intro l
  induction l with
  | nil => intro _ e he; simp at he
  | cons p rest ih =>
    intro h e he
    obtain ⟨k, v⟩ := p
    rw [noDupPairs] at h
    rw [Bool.and_eq_true, Bool.and_eq_true] at h
    rcases List.mem_cons.mp he with rfl | he2
    · exact ⟨h.1.1, h.1.2⟩
    · exact ih h.2 e he2

theorem pyEqList_refl_of : ∀ (xs : List Value),
    (∀ x ∈ xs, pyEq x x = true) → pyEqList xs xs = true := by
  intro xs
  induction xs with
  | nil => intro _; rw [pyEqList]
  | cons x rest ih =>
    intro h
    rw [pyEqList, Bool.and_eq_true]
    exact ⟨h x (List.mem_cons_self _ _),
      ih fun y hy => h y (List.mem_cons_of_mem _ hy)⟩

theorem pyEqMapFind_of : ∀ (ys : List (Value × Value)) (k v : Value),
    pairwiseKeysOk (ys.map Prod.fst) = true → (k, v) ∈ ys →
    pyEq k k = true → pyEq v v = true → pyEqMapFind k v ys = true := by
  intro ys
  induction ys with
  | nil => intro k v _ hm; simp at hm
  | cons p rest ih =>
    intro k v hpw hm hk hv
    obtain ⟨k1, v1⟩ := p
    rw [List.map_cons, pairwiseKeysOk, Bool.and_eq_true] at hpw
    rw [pyEqMapFind]
    rcases List.mem_cons.mp hm with he | hm2
    · have hk1 : k1 = k := congrArg Prod.fst he.symm
      have hv1 : v1 = v := congrArg Prod.snd he.symm
      subst hk1 hv1
      rw [if_pos hk]
      exact hv
    · have hkmem : k ∈ rest.map Prod.fst :=
        List.mem_map_of_mem Prod.fst hm2
      have hall := List.all_eq_true.mp hpw.1 k hkmem
      rw [Bool.and_eq_true] at hall
      have hne : ¬ pyEq k k1 = true := by
        intro hc
        rw [hc] at hall
        exact absurd hall.2 (by simp)
      rw [if_neg hne]
      exact ih k v hpw.2 hm2 hk hv

theorem pyEqMapSub_of : ∀ (xs ys : List (Value × Value)),
    pairwiseKeysOk (ys.map Prod.fst) = true → (∀ e ∈ xs, e ∈ ys) →
    (∀ e ∈ ys, pyEq e.1 e.1 = true ∧ pyEq e.2 e.2 = true) →
    pyEqMapSub xs ys = true := by
  intro xs
  induction xs with
  | nil => intro ys _ _ _; rw [pyEqMapSub]
  | cons p rest ih =>
    intro ys hpw hsub hrefl
    obtain ⟨k, v⟩ := p
    have hm : (k, v) ∈ ys := hsub _ (List.mem_cons_self _ _)
    have hr := hrefl _ hm
    rw [pyEqMapSub, Bool.and_eq_true]
    exact ⟨pyEqMapFind_of ys k v hpw hm hr.1 hr.2,
      ih ys hpw (fun e he => hsub e (List.mem_cons_of_mem _ he)) hrefl⟩

theorem pyEq_refl : ∀ (v : Value), noDupMapKeys v = true → pyEq v v = true
  | .vint n, _ => by
    rw [pyEq]
    · exact beq_self_eq_true _
    all_goals (intros; simp_all)
  | .vbool b, _ => by
    rw [pyEq]
    · exact beq_self_eq_true _
    all_goals (intros; simp_all)
  | .vfloat q, _ => by
    rw [pyEq]
    · exact beq_self_eq_true _
    all_goals (intros; simp_all)
  | .vstr s, _ => by
    rw [pyEq]
    · exact beq_self_eq_true _
    all_goals (intros; simp_all)
  | .vobj n, _ => by
    rw [pyEq]
    · exact beq_self_eq_true _
    all_goals (intros; simp_all)
  | .verr n, _ => by
    rw [pyEq]
    · exact beq_self_eq_true _
    all_goals (intros; simp_all)
  | .vcatch n, _ => by
    rw [pyEq]
    · exact beq_self_eq_true _
    all_goals (intros; simp_all)
  | .vfinally n, _ => by
    rw [pyEq]
    · exact beq_self_eq_true _
    all_goals (intros; simp_all)
  | .vanon n, _ => by
    rw [pyEq]
    · exact beq_self_eq_true _
    all_goals (intros; simp_all)
  | .vclear, _ => by
    rw [pyEq]
    · rfl
    all_goals (intros; simp_all)
  | .vnone, _ => by
    rw [pyEq]
    · rfl
    all_goals (intros; simp_all)
  | .vwaifref i, _ => by
    rw [pyEq]
    · exact beq_self_eq_true _
    all_goals (intros; simp_all)
  | .vlist xs, h => by
    rw [pyEq]
    · rw [noDupMapKeys] at h
      show pyEqList xs xs = true
      exact pyEqList_refl_of xs fun x hx =>
        have : sizeOf x < 1 + sizeOf xs := by
          have := List.sizeOf_lt_of_mem hx
          omega
        pyEq_refl x (noDupList_mem xs h x hx)
    all_goals (intros; simp_all)
  | .vtuple xs, h => by
    rw [pyEq]
    · rw [noDupMapKeys] at h
      show pyEqList xs xs = true
      exact pyEqList_refl_of xs fun x hx =>
        have : sizeOf x < 1 + sizeOf xs := by
          have := List.sizeOf_lt_of_mem hx
          omega
        pyEq_refl x (noDupList_mem xs h x hx)
    all_goals (intros; simp_all)
  | .vmap es, h => by
    rw [pyEq]
    · rw [noDupMapKeys, Bool.and_eq_true] at h
      show (es.length == es.length && pyEqMapSub es es) = true
      rw [Bool.and_eq_true]
      refine ⟨by simp, ?_⟩
      refine pyEqMapSub_of es es h.1 (fun e he => he) (fun e he => ?_)
      have hd := noDupPairs_mem es h.2 e he
      have hs : sizeOf e < sizeOf es := List.sizeOf_lt_of_mem he
      have hs1 : sizeOf e.1 < 1 + sizeOf es := by
        obtain ⟨e1, e2⟩ := e
        simp at hs ⊢
        omega
      have hs2 : sizeOf e.2 < 1 + sizeOf es := by
        obtain ⟨e1, e2⟩ := e
        simp at hs ⊢
        omega
      exact ⟨pyEq_refl e.1 hd.1, pyEq_refl e.2 hd.2⟩
    all_goals (intros; simp_all)
termination_by v _ => sizeOf v
decreasing_by all_goals (simp_wf; omega)

theorem compare_items_ok_of (m : Nat)
    (hv : ∀ (path : DiffPath) (e a : Value), sizeOf e + sizeOf a ≤ m →
      noDupMapKeys e = true → noDupMapKeys a = true →
      ∃ ds, compare_values path e a = Except.ok ds) :
    ∀ (xs ys : List Value) (path : DiffPath) (i : Nat),
      sizeOf xs + sizeOf ys ≤ m →
      (∀ x ∈ xs, noDupMapKeys x = true) → (∀ y ∈ ys, noDupMapKeys y = true) →
      ∃ ds, compare_items path i xs ys = Except.ok ds := by
  intro xs
  induction xs with
  | nil =>
    intro ys path i _ _ _
    cases hres : compare_items path i [] ys with
    | ok ds => exact ⟨ds, rfl⟩
    | error msg =>
      exfalso
      rw [compare_items.eq_def] at hres
      exact absurd hres (by simp)
  | cons x xs2 ih =>
    intro ys path i hsz hxs hys
    cases ys with
    | nil =>
      cases hres : compare_items path i (x :: xs2) [] with
      | ok ds => exact ⟨ds, rfl⟩
      | error msg =>
        exfalso
        rw [compare_items.eq_def] at hres
        exact absurd hres (by simp)
    | cons y ys2 =>
      have hszc : sizeOf (x :: xs2) = 1 + sizeOf x + sizeOf xs2 := by simp
      have hszc2 : sizeOf (y :: ys2) = 1 + sizeOf y + sizeOf ys2 := by simp
      obtain ⟨d, hd⟩ := hv (path.child (.idx (Int.ofNat i))) x y (by omega)
        (hxs x (List.mem_cons_self _ _)) (hys y (List.mem_cons_self _ _))
      obtain ⟨rest, hrest⟩ := ih ys2 path (i + 1) (by omega)
        (fun x2 hx2 => hxs x2 (List.mem_cons_of_mem _ hx2))
        (fun y2 hy2 => hys y2 (List.mem_cons_of_mem _ hy2))
      cases hres : compare_items path i (x :: xs2) (y :: ys2) with
      | ok ds => exact ⟨ds, rfl⟩
      | error msg =>
        exfalso
        rw [compare_items.eq_def] at hres
        have hres2 : (compare_values (path.child (.idx (Int.ofNat i))) x y >>= fun d =>
            compare_items path (i + 1) xs2 ys2 >>= fun rest =>
            Except.ok (d ++ rest)) = Except.error msg := hres
        rw [hd, except_bind_ok, hrest, except_bind_ok] at hres2
        exact absurd hres2 (by simp)

theorem compare_lists_ok_of (m : Nat)
    (hv : ∀ (path : DiffPath) (e a : Value), sizeOf e + sizeOf a ≤ m →
      noDupMapKeys e = true → noDupMapKeys a = true →
      ∃ ds, compare_values path e a = Except.ok ds)
    (xs ys : List Value) (path : DiffPath)
    (hsz : sizeOf xs + sizeOf ys ≤ m)
    (hxs : ∀ x ∈ xs, noDupMapKeys x = true)
    (hys : ∀ y ∈ ys, noDupMapKeys y = true) :
    ∃ ds, compare_lists path xs ys = Except.ok ds := by
  obtain ⟨di, hdi⟩ := compare_items_ok_of m hv xs ys path 0 hsz hxs hys
  cases hres : compare_lists path xs ys with
  | ok ds => exact ⟨ds, rfl⟩
  | error msg =>
    exfalso
    rw [compare_lists.eq_def] at hres
    rw [hdi, except_bind_ok] at hres
    exact absurd hres (by simp)

theorem pyLookup_sizeOf : ∀ (l : List (Value × Value)) (k v : Value),
    pyLookup l k = some v → sizeOf v < sizeOf l := by
  intro l k v h
  induction l with
  | nil => simp [pyLookup] at h
  | cons p rest ih =>
    obtain ⟨k', v'⟩ := p
    simp only [pyLookup] at h
    split at h
    · cases h; simp; omega
    · have := ih h; simp; omega

theorem compare_dict_key_one_ok_of (m : Nat)
    (hv : ∀ (path : DiffPath) (e a : Value), sizeOf e + sizeOf a ≤ m →
      noDupMapKeys e = true → noDupMapKeys a = true →
      ∃ ds, compare_values path e a = Except.ok ds)
    (k : Value) (xs ys : List (Value × Value)) (path : DiffPath)
    (hsz : sizeOf xs + sizeOf ys ≤ m)
    (hx : noDupPairs xs = true) (hy : noDupPairs ys = true)
    (hdisj : pyIn xs k = true ∨ pyIn ys k = true) :
    ∃ ds, compare_dict_key_one path k xs ys = Except.ok ds := by
  cases hres : compare_dict_key_one path k xs ys with
  | ok ds => exact ⟨ds, rfl⟩
  | error msg =>
    exfalso
    rw [compare_dict_key_one.eq_def] at hres
    split at hres
    · rename_i hnotin
      rw [Bool.not_eq_true'] at hnotin
      have hinx : pyIn xs k = true := by
        rcases hdisj with h | h
        · exact h
        · rw [hnotin] at h; exact absurd h (by simp)
      rw [pyIn] at hinx
      cases hlx : pyLookup xs k with
      | none => rw [hlx] at hinx; exact absurd hinx (by simp)
      | some ve =>
        rw [hlx] at hres
        exact absurd hres (by simp)
    · rename_i hin
      simp only [Bool.not_eq_true, Bool.not_eq_false] at hin
      split at hres
      · rename_i hnotin2
        cases hly : pyLookup ys k with
        | none =>
          rw [pyIn, hly] at hin
          exact absurd hin (by simp)
        | some va =>
          rw [hly] at hres
          exact absurd hres (by simp)
      · rename_i hin2
        simp only [Bool.not_eq_true, Bool.not_eq_false] at hin2
        rw [pyIn] at hin hin2
        cases hlx : pyLookup xs k with
        | none => rw [hlx] at hin2; exact absurd hin2 (by simp)
        | some ve =>
          cases hly : pyLookup ys k with
          | none => rw [hly] at hin; exact absurd hin (by simp)
          | some va =>
            rw [hlx, hly] at hres
            have hndve : noDupMapKeys ve = true := by
              obtain ⟨k', hk'⟩ := pyLookup_mem xs k ve hlx
              exact (noDupPairs_mem xs hx _ hk').2
            have hndva : noDupMapKeys va = true := by
              obtain ⟨k', hk'⟩ := pyLookup_mem ys k va hly
              exact (noDupPairs_mem ys hy _ hk').2
            have hb1 := pyLookup_sizeOf xs k ve hlx
            have hb2 := pyLookup_sizeOf ys k va hly
            obtain ⟨d, hd⟩ := hv (dictKeyPath path k) ve va (by omega) hndve hndva
            have hres2 : compare_values (dictKeyPath path k) ve va =
                Except.error msg := hres
            rw [hd] at hres2
            exact absurd hres2 (by simp)

theorem compare_dict_keys_ok_of (m : Nat)
    (hv : ∀ (path : DiffPath) (e a : Value), sizeOf e + sizeOf a ≤ m →
      noDupMapKeys e = true → noDupMapKeys a = true →
      ∃ ds, compare_values path e a = Except.ok ds) :
    ∀ (ks : List Value) (xs ys : List (Value × Value)) (path : DiffPath),
      sizeOf xs + sizeOf ys ≤ m →
      noDupPairs xs = true → noDupPairs ys = true →
      (∀ k ∈ ks, pyIn xs k = true ∨ pyIn ys k = true) →
      ∃ ds, compare_dict_keys path ks xs ys = Except.ok ds := by
  intro ks
  induction ks with
  | nil =>
    intro xs ys path _ _ _ _
    cases hres : compare_dict_keys path [] xs ys with
    | ok ds => exact ⟨ds, rfl⟩
    | error msg =>
      exfalso
      rw [compare_dict_keys.eq_def] at hres
      exact absurd hres (by simp)
  | cons k rest ih =>
    intro xs ys path hsz hx hy hks
    obtain ⟨d, hd⟩ := compare_dict_key_one_ok_of m hv k xs ys path hsz hx hy
      (hks k (List.mem_cons_self _ _))
    obtain ⟨restD, hrest⟩ := ih xs ys path hsz hx hy
      (fun k2 hk2 => hks k2 (List.mem_cons_of_mem _ hk2))
    cases hres : compare_dict_keys path (k :: rest) xs ys with
    | ok ds => exact ⟨ds, rfl⟩
    | error msg =>
      exfalso
      rw [compare_dict_keys.eq_def] at hres
      have hres2 : (compare_dict_key_one path k xs ys >>= fun d =>
          compare_dict_keys path rest xs ys >>= fun restD =>
          Except.ok (d ++ restD)) = Except.error msg := hres
      rw [hd, except_bind_ok, hrest, except_bind_ok] at hres2
      exact absurd hres2 (by simp)

theorem compare_dicts_ok_of (m : Nat)
    (hv : ∀ (path : DiffPath) (e a : Value), sizeOf e + sizeOf a ≤ m →
      noDupMapKeys e = true → noDupMapKeys a = true →
      ∃ ds, compare_values path e a = Except.ok ds)
    (xs ys : List (Value × Value)) (path : DiffPath)
    (hsz : sizeOf xs + sizeOf ys ≤ m)
    (hx : noDupPairs xs = true) (hy : noDupPairs ys = true) :
    ∃ ds, compare_dicts path xs ys = Except.ok ds := by
  have hks : ∀ k ∈ pySorted dictKeyLe
      ((xs.map Prod.fst) ++ ((ys.map Prod.fst).filter fun k => !pyIn xs k)),
      pyIn xs k = true ∨ pyIn ys k = true := by
    intro k hk
    have hm := mem_pySorted _ _ _ hk
    rcases List.mem_append.mp hm with hmx | hmy
    · obtain ⟨p, hp, hfst⟩ := List.mem_map.mp hmx
      subst hfst
      exact Or.inl (pyIn_of_mem_keys xs p.1 hmx
        (pyEq_refl p.1 (noDupPairs_mem xs hx p hp).1))
    · have hmy2 := List.mem_of_mem_filter hmy
      obtain ⟨p, hp, hfst⟩ := List.mem_map.mp hmy2
      subst hfst
      exact Or.inr (pyIn_of_mem_keys ys p.1 hmy2
        (pyEq_refl p.1 (noDupPairs_mem ys hy p hp).1))
  obtain ⟨ds, hds⟩ := compare_dict_keys_ok_of m hv _ xs ys path hsz hx hy hks
  cases hres : compare_dicts path xs ys with
  | ok ds2 => exact ⟨ds2, rfl⟩
  | error msg =>
    exfalso
    rw [compare_dicts.eq_def] at hres
    rw [hds] at hres
    exact absurd hres (by simp)

theorem compare_values_okN : ∀ (n : Nat) (path : DiffPath) (e a : Value),
    sizeOf e + sizeOf a ≤ n →
    noDupMapKeys e = true → noDupMapKeys a = true →
    ∃ ds, compare_values path e a = Except.ok ds := by
  intro n
  induction n using Nat.strong_induction_on with
  | _ n ihn =>
    intro path e a hsz he ha
    cases hres : compare_values path e a with
    | ok ds => exact ⟨ds, rfl⟩
    | error msg =>
      exfalso
      rw [compare_values.eq_def] at hres
      split at hres
      · exact absurd hres (by simp)
      · split at hres
        · exact absurd hres (by simp)
        · split at hres
          · exact absurd hres (by simp)
          · cases e <;> cases a <;> (try simp at hres) <;>
              (try (split at hres <;> simp at hres))
            · rename_i xs ys c1 c2 c3
              rw [noDupMapKeys] at he ha
              have hsx : sizeOf (Value.vlist xs) = 1 + sizeOf xs := by simp
              have hsy : sizeOf (Value.vlist ys) = 1 + sizeOf ys := by simp
              obtain ⟨ds, hds⟩ := compare_lists_ok_of (sizeOf xs + sizeOf ys)
                (fun p e2 a2 hle he2 ha2 => ihn (sizeOf xs + sizeOf ys)
                  (by omega) p e2 a2 hle he2 ha2) xs ys path (le_refl _)
                (noDupList_mem xs he) (noDupList_mem ys ha)
              rw [hds] at hres
              exact absurd hres (by simp)
            · rename_i xs ys c1 c2 c3
              rw [noDupMapKeys] at he ha
              have hsx : sizeOf (Value.vtuple xs) = 1 + sizeOf xs := by simp
              have hsy : sizeOf (Value.vtuple ys) = 1 + sizeOf ys := by simp
              obtain ⟨ds, hds⟩ := compare_lists_ok_of (sizeOf xs + sizeOf ys)
                (fun p e2 a2 hle he2 ha2 => ihn (sizeOf xs + sizeOf ys)
                  (by omega) p e2 a2 hle he2 ha2) xs ys path (le_refl _)
                (noDupList_mem xs he) (noDupList_mem ys ha)
              rw [hds] at hres
              exact absurd hres (by simp)
            · rename_i xs ys c1 c2 c3
              rw [noDupMapKeys, Bool.and_eq_true] at he ha
              have hsx : sizeOf (Value.vmap xs) = 1 + sizeOf xs := by simp
              have hsy : sizeOf (Value.vmap ys) = 1 + sizeOf ys := by simp
              obtain ⟨ds, hds⟩ := compare_dicts_ok_of (sizeOf xs + sizeOf ys)
                (fun p e2 a2 hle he2 ha2 => ihn (sizeOf xs + sizeOf ys)
                  (by omega) p e2 a2 hle he2 ha2) xs ys path (le_refl _)
                he.2 ha.2
              rw [hds] at hres
              exact absurd hres (by simp)

theorem compare_values_ok (path : DiffPath) (e a : Value)
    (he : noDupMapKeys e = true) (ha : noDupMapKeys a = true) :
    ∃ ds, compare_values path e a = Except.ok ds :=
  compare_values_okN (sizeOf e + sizeOf a) path e a (le_refl _) he ha

theorem noDupList_map_vstr : ∀ (c : List String),
    noDupList (c.map .vstr) = true := by
  intro c
  induction c with
  | nil => rw [List.map_nil, noDupList]
  | cons x rest ih =>
    rw [List.map_cons, noDupList]
    rw [Bool.and_eq_true]
    exact ⟨by rw [noDupMapKeys] <;> (intros; simp_all), ih⟩

theorem noDup_strListV (c : List String) : noDupMapKeys (strListV c) = true := by
  rw [strListV, noDupMapKeys]
  exact noDupList_map_vstr c

theorem noDupList_map_vint : ∀ (l : List Int),
    noDupList (l.map .vint) = true := by
  intro l
  induction l with
  | nil => rw [List.map_nil, noDupList]
  | cons x rest ih =>
    rw [List.map_cons, noDupList]
    rw [Bool.and_eq_true]
    exact ⟨by rw [noDupMapKeys] <;> (intros; simp_all), ih⟩

theorem noDup_intListV (l : List Int) : noDupMapKeys (intListV l) = true := by
  rw [intListV, noDupMapKeys]
  exact noDupList_map_vint l

theorem noDup_waifPropsV (ps : List (Int × Value))
    (h : ∀ sv ∈ ps, noDupMapKeys sv.2 = true) :
    noDupMapKeys (waifPropsV ps) = true := by
  rw [waifPropsV, noDupMapKeys]
  induction ps with
  | nil => rw [List.map_nil, noDupList]
  | cons sv rest ih =>
    rw [List.map_cons, noDupList, Bool.and_eq_true]
    refine ⟨?_, ih fun sv2 h2 => h sv2 (List.mem_cons_of_mem _ h2)⟩
    rw [noDupMapKeys, noDupList, Bool.and_eq_true]
    refine ⟨by rw [noDupMapKeys] <;> (intros; simp_all), ?_⟩
    rw [noDupList, Bool.and_eq_true]
    exact ⟨h sv (List.mem_cons_self _ _), by rw [noDupList]⟩

theorem insertOrReplace_mem : ∀ (acc : List (String × Property)) (n : String)
    (p : Property) (e : String × Property),
    e ∈ insertOrReplace acc n p → e ∈ acc ∨ e.2 = p := by
  intro acc
  induction acc with
  | nil =>
    intro n p e he
    rw [insertOrReplace] at he
    rcases List.mem_singleton.mp he with rfl
    exact Or.inr rfl
  | cons q rest ih =>
    intro n p e he
    obtain ⟨n', p'⟩ := q
    rw [insertOrReplace] at he
    split at he
    · rcases List.mem_cons.mp he with rfl | he2
      · exact Or.inr rfl
      · exact Or.inl (List.mem_cons_of_mem _ he2)
    · rcases List.mem_cons.mp he with rfl | he2
      · exact Or.inl (List.mem_cons_self _ _)
      · rcases ih n p e he2 with h | h
        · exact Or.inl (List.mem_cons_of_mem _ h)
        · exact Or.inr h

theorem buildByName_mem_aux (P : Property → Prop) :
    ∀ (ps : List Property) (acc : List (String × Property)),
      (∀ e ∈ acc, P e.2) → (∀ p ∈ ps, P p) →
      ∀ e ∈ ps.foldl (fun acc p => insertOrReplace acc p.propertyName p) acc, P e.2 := by
  intro ps
  induction ps with
  | nil => intro acc hacc _ e he; exact hacc e he
  | cons p rest ih =>
    intro acc hacc hps e he
    rw [List.foldl_cons] at he
    refine ih _ ?_ (fun q hq => hps q (List.mem_cons_of_mem _ hq)) e he
    intro e2 he2
    rcases insertOrReplace_mem acc p.propertyName p e2 he2 with h | h
    · exact hacc e2 h
    · rw [h]; exact hps p (List.mem_cons_self _ _)

theorem buildByName_mem (ps : List Property) (e : String × Property)
    (he : e ∈ buildByName ps) : e.2 ∈ ps := by
  rw [buildByName] at he
  exact buildByName_mem_aux (fun p => p ∈ ps) ps [] (by simp) (fun p hp => hp) e he

theorem compare_prop_pair_ok (propPath : DiffPath) (ep ap : Property)
    (h1 : noDupMapKeys ep.value = true) (h2 : noDupMapKeys ap.value = true) :
    ∃ ds, compare_prop_pair propPath ep ap = Except.ok ds := by
  obtain ⟨vd, hvd⟩ := compare_values_ok (propPath.child (.str "value"))
    ep.value ap.value h1 h2
  cases hres : compare_prop_pair propPath ep ap with
  | ok ds => exact ⟨ds, rfl⟩
  | error msg =>
    exfalso
    rw [compare_prop_pair] at hres
    rw [hvd, except_bind_ok] at hres
    exact absurd hres (by simp)

theorem compare_props_names_ok (path : DiffPath) :
    ∀ (names : List String) (expBN actBN : List (String × Property)),
      (∀ n ∈ names, (List.lookup n expBN).isSome = true ∨
        (List.lookup n actBN).isSome = true) →
      (∀ e ∈ expBN, noDupMapKeys e.2.value = true) →
      (∀ e ∈ actBN, noDupMapKeys e.2.value = true) →
      ∃ ds, compare_props_names path names expBN actBN = Except.ok ds := by
  intro names
  induction names with
  | nil =>
    intro expBN actBN _ _ _
    exact ⟨[], by rw [compare_props_names]⟩
  | cons n rest ih =>
    intro expBN actBN hns hexp hact
    obtain ⟨restD, hrest⟩ := ih expBN actBN
      (fun n2 h2 => hns n2 (List.mem_cons_of_mem _ h2)) hexp hact
    have hdisj := hns n (List.mem_cons_self _ _)
    cases hres : compare_props_names path (n :: rest) expBN actBN with
    | ok ds => exact ⟨ds, rfl⟩
    | error msg =>
      exfalso
      rw [compare_props_names] at hres
      split at hres
      · rename_i hnone
        rw [Option.isNone_iff_eq_none] at hnone
        have hinx : (List.lookup n expBN).isSome = true := by
          rcases hdisj with h | h
          · exact h
          · rw [hnone] at h; exact absurd h (by simp)
        cases hle : List.lookup n expBN with
        | none => rw [hle] at hinx; exact absurd hinx (by simp)
        | some p =>
          rw [hle] at hres
          have hres2 : (compare_props_names path rest expBN actBN >>= fun restD2 =>
              Except.ok (⟨(path.child (.str "properties")).child (.str n),
                .missing, .prop p, .v .vnone⟩ :: restD2)) = Except.error msg := hres
          rw [hrest, except_bind_ok] at hres2
          exact absurd hres2 (by simp)
      · rename_i hsome
        split at hres
        · rename_i hnone2
          cases hla : List.lookup n actBN with
          | none =>
            rw [hla] at hsome
            exact hsome rfl
          | some p =>
            rw [hla] at hres
            have hres2 : (compare_props_names path rest expBN actBN >>= fun restD2 =>
                Except.ok (⟨(path.child (.str "properties")).child (.str n),
                  .extra, .v .vnone, .prop p⟩ :: restD2)) = Except.error msg := hres
            rw [hrest, except_bind_ok] at hres2
            exact absurd hres2 (by simp)
        · rename_i hsome2
          cases hle : List.lookup n expBN with
          | none =>
            rw [hle] at hsome2
            exact hsome2 rfl
          | some ep =>
            cases hla : List.lookup n actBN with
            | none =>
              rw [hla] at hsome
              exact hsome rfl
            | some ap =>
              rw [hle, hla] at hres
              obtain ⟨d, hd⟩ := compare_prop_pair_ok
                ((path.child (.str "properties")).child (.str n)) ep ap
                (hexp _ (lookup_mem expBN n ep hle))
                (hact _ (lookup_mem actBN n ap hla))
              have hres2 : (compare_prop_pair
                  ((path.child (.str "properties")).child (.str n)) ep ap >>= fun d =>
                  compare_props_names path rest expBN actBN >>= fun restD2 =>
                  Except.ok (d ++ restD2)) = Except.error msg := hres
              rw [hd, except_bind_ok, hrest, except_bind_ok] at hres2
              exact absurd hres2 (by simp)

theorem compare_properties_ok (path : DiffPath) (expected actual : List Property)
    (hx : ∀ p ∈ expected, noDupMapKeys p.value = true)
    (hy : ∀ p ∈ actual, noDupMapKeys p.value = true) :
    ∃ ds, compare_properties path expected actual = Except.ok ds := by
  have hexp : ∀ e ∈ buildByName expected, noDupMapKeys e.2.value = true :=
    fun e he => hx _ (buildByName_mem expected e he)
  have hact : ∀ e ∈ buildByName actual, noDupMapKeys e.2.value = true :=
    fun e he => hy _ (buildByName_mem actual e he)
  have hns : ∀ n ∈ pySorted strLe ((buildByName expected).map Prod.fst ++
      (((buildByName actual).map Prod.fst).filter fun n =>
        (List.lookup n (buildByName expected)).isNone)),
      (List.lookup n (buildByName expected)).isSome = true ∨
      (List.lookup n (buildByName actual)).isSome = true := by
    intro n hn
    have hm := mem_pySorted _ _ _ hn
    rcases List.mem_append.mp hm with hmx | hmy
    · exact Or.inl (lookup_isSome_of_mem_keys _ n hmx)
    · exact Or.inr (lookup_isSome_of_mem_keys _ n (List.mem_of_mem_filter hmy))
  obtain ⟨ds, hds⟩ := compare_props_names_ok path _ _ _ hns hexp hact
  cases hres : compare_properties path expected actual with
  | ok ds2 => exact ⟨ds2, rfl⟩
  | error msg =>
    exfalso
    rw [compare_properties] at hres
    rw [hds] at hres
    exact absurd hres (by simp)

theorem except_bind_error_inv {ε α β : Type} {x : Except ε α} {a : α}
    {f : α → Except ε β} {e : ε} (hx : x = Except.ok a)
    (h : (x >>= f) = Except.error e) : f a = Except.error e := by
  rw [hx, except_bind_ok] at h
  exact h

theorem verb_pair_diffs_ok (verbPath : DiffPath) (ev av : Verb) :
    ∃ ds, verb_pair_diffs verbPath ev av = Except.ok ds := by
  cases hres : verb_pair_diffs verbPath ev av with
  | ok ds => exact ⟨ds, rfl⟩
  | error msg =>
    exfalso
    rw [verb_pair_diffs] at hres
    cases hce : ev.code with
    | none =>
      cases hca : av.code with
      | none =>
        rw [hce, hca] at hres
        exact Except.noConfusion hres
      | some c =>
        rw [hce, hca] at hres
        exact Except.noConfusion hres
    | some ec =>
      cases hca : av.code with
      | none =>
        rw [hce, hca] at hres
        exact Except.noConfusion hres
      | some ac =>
        rw [hce, hca] at hres
        obtain ⟨cd, hcd⟩ := compare_values_ok (verbPath.child (.str "code"))
          (strListV ec) (strListV ac) (noDup_strListV ec) (noDup_strListV ac)
        have h3 := except_bind_error_inv hcd hres
        exact Except.noConfusion h3

theorem verbs_zip_ok (path : DiffPath) :
    ∀ (es as2 : List Verb) (i : Nat),
      ∃ ds, verbs_zip path i es as2 = Except.ok ds := by
  intro es
  induction es with
  | nil =>
    intro as2 i
    cases hres : verbs_zip path i [] as2 with
    | ok ds => exact ⟨ds, rfl⟩
    | error msg =>
      exfalso
      rw [verbs_zip] at hres
      · exact Except.noConfusion hres
      all_goals (intros; simp_all)
  | cons ev es2 ih =>
    intro as2 i
    cases as2 with
    | nil =>
      cases hres : verbs_zip path i (ev :: es2) [] with
      | ok ds => exact ⟨ds, rfl⟩
      | error msg =>
        exfalso
        rw [verbs_zip] at hres
        · exact Except.noConfusion hres
        all_goals (intros; simp_all)
    | cons av as3 =>
      obtain ⟨d, hd⟩ := verb_pair_diffs_ok
        ((path.child (.str "verbs")).child (.idx (Int.ofNat i))) ev av
      obtain ⟨rest, hrest⟩ := ih as3 (i + 1)
      cases hres : verbs_zip path i (ev :: es2) (av :: as3) with
      | ok ds => exact ⟨ds, rfl⟩
      | error msg =>
        exfalso
        rw [verbs_zip] at hres
        have h3 := except_bind_error_inv hd hres
        have h4 := except_bind_error_inv hrest h3
        exact Except.noConfusion h4

theorem compare_verbs_ok (path : DiffPath) (expected actual : List Verb) :
    ∃ ds, compare_verbs path expected actual = Except.ok ds := by
  obtain ⟨zd, hzd⟩ := verbs_zip_ok path expected actual 0
  cases hres : compare_verbs path expected actual with
  | ok ds => exact ⟨ds, rfl⟩
  | error msg =>
    exfalso
    rw [compare_verbs] at hres
    have h3 := except_bind_error_inv hzd hres
    exact Except.noConfusion h3

theorem compare_objects_ok (path : DiffPath) (eo ao : MooObject)
    (heo : objectValuesOk eo = true) (hao : objectValuesOk ao = true) :
    ∃ ds, compare_objects path eo ao = Except.ok ds := by
  rw [objectValuesOk, Bool.and_eq_true, Bool.and_eq_true] at heo hao
  obtain ⟨d1, hd1⟩ := compare_values_ok (path.child (.str "parents"))
    (intListV eo.parents) (intListV ao.parents)
    (noDup_intListV _) (noDup_intListV _)
  obtain ⟨d2, hd2⟩ := compare_values_ok (path.child (.str "children"))
    (intListV eo.children) (intListV ao.children)
    (noDup_intListV _) (noDup_intListV _)
  obtain ⟨d3, hd3⟩ := compare_values_ok (path.child (.str "contents"))
    (intListV eo.contents) (intListV ao.contents)
    (noDup_intListV _) (noDup_intListV _)
  obtain ⟨d4, hd4⟩ := compare_properties_ok path eo.properties ao.properties
    (fun p hp => List.all_eq_true.mp heo.2 p hp)
    (fun p hp => List.all_eq_true.mp hao.2 p hp)
  obtain ⟨d5, hd5⟩ := compare_verbs_ok path eo.verbs ao.verbs
  cases hres : compare_objects path eo ao with
  | ok ds => exact ⟨ds, rfl⟩
  | error msg =>
    exfalso
    rw [compare_objects] at hres
    have h1 := except_bind_error_inv hd1 hres
    have h2 := except_bind_error_inv hd2 h1
    have h3 := except_bind_error_inv hd3 h2
    have h4 := except_bind_error_inv hd4 h3
    have h5 := except_bind_error_inv hd5 h4
    exact Except.noConfusion h5

theorem compare_waif_ok (path : DiffPath) (ew aw : Waif)
    (hew : ∀ sv ∈ ew.props, noDupMapKeys sv.2 = true)
    (haw : ∀ sv ∈ aw.props, noDupMapKeys sv.2 = true) :
    ∃ ds, compare_waif path ew aw = Except.ok ds := by
  obtain ⟨d, hd⟩ := compare_values_ok (path.child (.str "props"))
    (waifPropsV ew.props) (waifPropsV aw.props)
    (noDup_waifPropsV _ hew) (noDup_waifPropsV _ haw)
  cases hres : compare_waif path ew aw with
  | ok ds => exact ⟨ds, rfl⟩
  | error msg =>
    exfalso
    rw [compare_waif] at hres
    have h1 := except_bind_error_inv hd hres
    exact Except.noConfusion h1

theorem waifs_loop_ok (path : DiffPath) :
    ∀ (idxs : List Int) (expected actual : List (Int × Waif)),
      (∀ i ∈ idxs, (List.lookup i expected).isSome = true ∨
        (List.lookup i actual).isSome = true) →
      (∀ e ∈ expected, ∀ sv ∈ e.2.props, noDupMapKeys sv.2 = true) →
      (∀ e ∈ actual, ∀ sv ∈ e.2.props, noDupMapKeys sv.2 = true) →
      ∃ ds, waifs_loop path idxs expected actual = Except.ok ds := by
  intro idxs
  induction idxs with
  | nil =>
    intro expected actual _ _ _
    exact ⟨[], by rw [waifs_loop]⟩
  | cons idx rest ih =>
    intro expected actual hns hexp hact
    obtain ⟨restD, hrest⟩ := ih expected actual
      (fun i2 h2 => hns i2 (List.mem_cons_of_mem _ h2)) hexp hact
    have hdisj := hns idx (List.mem_cons_self _ _)
    cases hres : waifs_loop path (idx :: rest) expected actual with
    | ok ds => exact ⟨ds, rfl⟩
    | error msg =>
      exfalso
      rw [waifs_loop] at hres
      split at hres
      · rename_i hnone
        rw [Option.isNone_iff_eq_none] at hnone
        have hinx : (List.lookup idx expected).isSome = true := by
          rcases hdisj with h | h
          · exact h
          · rw [hnone] at h; exact absurd h (by simp)
        cases hle : List.lookup idx expected with
        | none => rw [hle] at hinx; exact absurd hinx (by simp)
        | some w =>
          rw [hle] at hres
          have h3 := except_bind_error_inv hrest hres
          exact Except.noConfusion h3
      · rename_i hsome
        split at hres
        · rename_i hnone2
          cases hla : List.lookup idx actual with
          | none =>
            rw [hla] at hsome
            exact hsome rfl
          | some w =>
            rw [hla] at hres
            have h3 := except_bind_error_inv hrest hres
            exact Except.noConfusion h3
        · rename_i hsome2
          cases hle : List.lookup idx expected with
          | none =>
            rw [hle] at hsome2
            exact hsome2 rfl
          | some ew =>
            cases hla : List.lookup idx actual with
            | none =>
              rw [hla] at hsome
              exact hsome rfl
            | some aw =>
              rw [hle, hla] at hres
              obtain ⟨d, hd⟩ := compare_waif_ok
                ((path.child (.str "waifs")).child (.idx idx)) ew aw
                (hexp _ (lookup_mem expected idx ew hle))
                (hact _ (lookup_mem actual idx aw hla))
              have h3 := except_bind_error_inv hd hres
              have h4 := except_bind_error_inv hrest h3
              exact Except.noConfusion h4

theorem compare_waifs_ok (path : DiffPath) (expected actual : List (Int × Waif))
    (hexp : ∀ e ∈ expected, ∀ sv ∈ e.2.props, noDupMapKeys sv.2 = true)
    (hact : ∀ e ∈ actual, ∀ sv ∈ e.2.props, noDupMapKeys sv.2 = true) :
    ∃ ds, compare_waifs path expected actual = Except.ok ds := by
  have hns : ∀ i ∈ pySorted intLe (dedupInts
      ((expected.map Prod.fst) ++ (actual.map Prod.fst))),
      (List.lookup i expected).isSome = true ∨
      (List.lookup i actual).isSome = true := by
    intro i hi
    have hm := mem_dedupInts _ i (mem_pySorted _ _ _ hi)
    rcases List.mem_append.mp hm with h | h
    · exact Or.inl (lookup_isSome_of_mem_keys _ i h)
    · exact Or.inr (lookup_isSome_of_mem_keys _ i h)
  obtain ⟨ds, hds⟩ := waifs_loop_ok path _ expected actual hns hexp hact
  cases hres : compare_waifs path expected actual with
  | ok ds2 => exact ⟨ds2, rfl⟩
  | error msg =>
    exfalso
    rw [compare_waifs] at hres
    rw [hds] at hres
    exact Except.noConfusion hres

theorem objects_loop_ok (maxDiffs : Option Nat) :
    ∀ (ids : List Int) (eobjs aobjs : List (Int × MooObject)) (acc : List Diff),
      (∀ i ∈ ids, (List.lookup i eobjs).isSome = true ∨
        (List.lookup i aobjs).isSome = true) →
      (∀ e ∈ eobjs, objectValuesOk e.2 = true) →
      (∀ e ∈ aobjs, objectValuesOk e.2 = true) →
      ∃ r, objects_loop maxDiffs ids eobjs aobjs acc = Except.ok r := by
  intro ids
  induction ids with
  | nil =>
    intro eobjs aobjs acc _ _ _
    exact ⟨(acc, true), by rw [objects_loop]⟩
  | cons objId rest ih =>
    intro eobjs aobjs acc hns hexp hact
    have hdisj := hns objId (List.mem_cons_self _ _)
    have hnsr : ∀ i ∈ rest, (List.lookup i eobjs).isSome = true ∨
        (List.lookup i aobjs).isSome = true :=
      fun i2 h2 => hns i2 (List.mem_cons_of_mem _ h2)
    cases hres : objects_loop maxDiffs (objId :: rest) eobjs aobjs acc with
    | ok r => exact ⟨r, rfl⟩
    | error msg =>
      exfalso
      rw [objects_loop] at hres
      split at hres
      · rename_i hnone
        rw [Option.isNone_iff_eq_none] at hnone
        have hinx : (List.lookup objId eobjs).isSome = true := by
          rcases hdisj with h | h
          · exact h
          · rw [hnone] at h; exact absurd h (by simp)
        cases hle : List.lookup objId eobjs with
        | none => rw [hle] at hinx; exact absurd hinx (by simp)
        | some o =>
          rw [hle] at hres
          have hres2 : (if (addDiffsLoop maxDiffs acc
              [⟨DiffPath.objectOf objId, .missing, .obj o, .v .vnone⟩]).2 then
              objects_loop maxDiffs rest eobjs aobjs (addDiffsLoop maxDiffs acc
                [⟨DiffPath.objectOf objId, .missing, .obj o, .v .vnone⟩]).1
            else Except.ok ((addDiffsLoop maxDiffs acc
              [⟨DiffPath.objectOf objId, .missing, .obj o, .v .vnone⟩]).1, false)) =
              Except.error msg := hres
          split at hres2
          · obtain ⟨r2, hr2⟩ := ih eobjs aobjs _ hnsr hexp hact
            rw [hr2] at hres2
            exact Except.noConfusion hres2
          · exact Except.noConfusion hres2
      · rename_i hsome
        split at hres
        · rename_i hnone2
          cases hla : List.lookup objId aobjs with
          | none =>
            rw [hla] at hsome
            exact hsome rfl
          | some o =>
            rw [hla] at hres
            have hres2 : (if (addDiffsLoop maxDiffs acc
                [⟨DiffPath.objectOf objId, .extra, .v .vnone, .obj o⟩]).2 then
                objects_loop maxDiffs rest eobjs aobjs (addDiffsLoop maxDiffs acc
                  [⟨DiffPath.objectOf objId, .extra, .v .vnone, .obj o⟩]).1
              else Except.ok ((addDiffsLoop maxDiffs acc
                [⟨DiffPath.objectOf objId, .extra, .v .vnone, .obj o⟩]).1, false)) =
                Except.error msg := hres
            split at hres2
            · obtain ⟨r2, hr2⟩ := ih eobjs aobjs _ hnsr hexp hact
              rw [hr2] at hres2
              exact Except.noConfusion hres2
            · exact Except.noConfusion hres2
        · rename_i hsome2
          cases hle : List.lookup objId eobjs with
          | none =>
            rw [hle] at hsome2
            exact hsome2 rfl
          | some eo =>
            cases hla : List.lookup objId aobjs with
            | none =>
              rw [hla] at hsome
              exact hsome rfl
            | some ao =>
              rw [hle, hla] at hres
              obtain ⟨ds, hds⟩ := compare_objects_ok (DiffPath.objectOf objId) eo ao
                (hexp _ (lookup_mem eobjs objId eo hle))
                (hact _ (lookup_mem aobjs objId ao hla))
              have h3 := except_bind_error_inv hds hres
              have hres2 : (if (addDiffsLoop maxDiffs acc ds).2 then
                  objects_loop maxDiffs rest eobjs aobjs (addDiffsLoop maxDiffs acc ds).1
                else Except.ok ((addDiffsLoop maxDiffs acc ds).1, false)) =
                  Except.error msg := h3
              split at hres2
              · obtain ⟨r2, hr2⟩ := ih eobjs aobjs _ hnsr hexp hact
                rw [hr2] at hres2
                exact Except.noConfusion hres2
              · exact Except.noConfusion hres2

/-- C8: for every pair of databases whose values satisfy the well-formedness
invariant of real Python dicts (`dbValuesOk`: no dict among the held values
carries two `==`-equal keys), `compare_databases` returns normally with a
`CompareResult` and never raises, whatever the `ignore_fields` and `max_diffs`
arguments and however mismatched the two sides' types or shapes are. -/
theorem compare_databases_total (expected actual : MooDatabase)
    (ignore_fields : Option (List String)) (max_diffs : Option Nat)
    (hed : dbValuesOk expected = true) (had : dbValuesOk actual = true) :
    ∃ r : CompareResult,
      compare_databases expected actual ignore_fields max_diffs = Except.ok r := by
  rw [dbValuesOk, Bool.and_eq_true] at hed had
  obtain ⟨pd, hpd⟩ : ∃ pd, db_section_players (ignore_fields.getD []) expected actual =
      Except.ok pd := by
    rw [db_section_players]
    split
    · exact ⟨[], rfl⟩
    · exact compare_values_ok _ _ _ (noDup_intListV _) (noDup_intListV _)
  obtain ⟨rd, hrd⟩ : ∃ rd, db_section_recycled (ignore_fields.getD []) expected actual =
      Except.ok rd := by
    rw [db_section_recycled]
    split
    · exact ⟨[], rfl⟩
    · exact compare_values_ok _ _ _ (noDup_intListV _) (noDup_intListV _)
  obtain ⟨ad, had2⟩ : ∃ ad, db_section_anon (ignore_fields.getD []) expected actual =
      Except.ok ad := by
    rw [db_section_anon]
    split
    · exact ⟨[], rfl⟩
    · exact compare_values_ok _ _ _ (noDup_intListV _) (noDup_intListV _)
  obtain ⟨wd, hwd⟩ : ∃ wd, db_section_waifs (ignore_fields.getD []) expected actual =
      Except.ok wd := by
    rw [db_section_waifs]
    split
    · exact ⟨[], rfl⟩
    · refine compare_waifs_ok _ _ _ ?_ ?_
      · intro e he sv hsv
        have h1 := List.all_eq_true.mp hed.2 e he
        exact List.all_eq_true.mp h1 sv hsv
      · intro e he sv hsv
        have h1 := List.all_eq_true.mp had.2 e he
        exact List.all_eq_true.mp h1 sv hsv
  have hobj : ∀ diffs : List Diff, ∃ os,
      db_section_objects (ignore_fields.getD []) max_diffs expected actual diffs =
        Except.ok os := by
    intro diffs
    rw [db_section_objects]
    split
    · exact ⟨_, rfl⟩
    · refine objects_loop_ok max_diffs _ _ _ _ ?_
        (fun e he => List.all_eq_true.mp hed.1 e he)
        (fun e he => List.all_eq_true.mp had.1 e he)
      intro i hi
      have hm := mem_dedupInts _ i (mem_pySorted _ _ _ hi)
      rcases List.mem_append.mp hm with h | h
      · exact Or.inl (lookup_isSome_of_mem_keys _ i h)
      · exact Or.inr (lookup_isSome_of_mem_keys _ i h)
  cases hres : compare_databases expected actual ignore_fields max_diffs with
  | ok r => exact ⟨r, rfl⟩
  | error msg =>
    exfalso
    rw [compare_databases] at hres
    split at hres <;> try exact Except.noConfusion hres
    split at hres <;> try exact Except.noConfusion hres
    split at hres <;> try exact Except.noConfusion hres
    have h4 := except_bind_error_inv hpd hres
    beta_reduce at h4
    split at h4 <;> try exact Except.noConfusion h4
    have h5 := except_bind_error_inv hrd h4
    beta_reduce at h5
    split at h5 <;> try exact Except.noConfusion h5
    have h6 := except_bind_error_inv had2 h5
    beta_reduce at h6
    split at h6 <;> try exact Except.noConfusion h6
    obtain ⟨os, hos⟩ := hobj _
    have h7 := except_bind_error_inv hos h6
    beta_reduce at h7
    split at h7 <;> try exact Except.noConfusion h7
    have h8 := except_bind_error_inv hwd h7
    beta_reduce at h8
    exact Except.noConfusion h8

theorem compare_databases_total_witness :
    dbValuesOk dbEmpty = true ∧ dbValuesOk dbWithWaif = true ∧
    ∃ r : CompareResult,
      compare_databases dbEmpty dbWithWaif none none = Except.ok r :=
  ⟨rfl, rfl, compare_databases_total dbEmpty dbWithWaif none none rfl rfl⟩

set_option maxHeartbeats 1000000

theorem mathIsClose_refl (x : ℚ) : mathIsClose x x = true := by
  rw [mathIsClose]
  simp only [sub_self, abs_zero, decide_eq_true_eq]
  exact le_max_of_le_right (by norm_num)

theorem compare_items_refl_of (m : Nat)
    (hv : ∀ (path : DiffPath) (v : Value), sizeOf v ≤ m →
      noDupMapKeys v = true → compare_values path v v = Except.ok []) :
    ∀ (xs : List Value) (path : DiffPath) (i : Nat),
      sizeOf xs ≤ m →
      (∀ x ∈ xs, noDupMapKeys x = true) →
      compare_items path i xs xs = Except.ok [] := by
  intro xs
  induction xs with
  | nil =>
    intro path i _ _
    rw [compare_items]
    all_goals (intros; simp_all)
  | cons x xs2 ih =>
    intro path i hsz hnd
    have hszc : sizeOf (x :: xs2) = 1 + sizeOf x + sizeOf xs2 := by simp
    have hx := hv (path.child (.idx (Int.ofNat i))) x (by omega)
      (hnd x (List.mem_cons_self _ _))
    have htail := ih path (i + 1) (by omega)
      (fun y hy => hnd y (List.mem_cons_of_mem _ hy))
    rw [compare_items, hx, except_bind_ok, htail, except_bind_ok]
    rfl

theorem compare_lists_refl_of (m : Nat)
    (hv : ∀ (path : DiffPath) (v : Value), sizeOf v ≤ m →
      noDupMapKeys v = true → compare_values path v v = Except.ok [])
    (xs : List Value) (path : DiffPath)
    (hsz : sizeOf xs ≤ m)
    (hnd : ∀ x ∈ xs, noDupMapKeys x = true) :
    compare_lists path xs xs = Except.ok [] := by
  have hitems := compare_items_refl_of m hv xs path 0 hsz hnd
  rw [compare_lists.eq_def, hitems, except_bind_ok]
  simp

theorem compare_dict_key_one_refl_of (m : Nat)
    (hv : ∀ (path : DiffPath) (v : Value), sizeOf v ≤ m →
      noDupMapKeys v = true → compare_values path v v = Except.ok [])
    (k : Value) (xs : List (Value × Value)) (path : DiffPath)
    (hsz : sizeOf xs ≤ m)
    (hnd : noDupPairs xs = true)
    (hin : pyIn xs k = true) :
    compare_dict_key_one path k xs xs = Except.ok [] := by
  rw [compare_dict_key_one.eq_def]
  have hnot : (!pyIn xs k) = false := by rw [hin]; rfl
  rw [hnot]
  simp only [Bool.false_eq_true, if_false]
  rw [pyIn] at hin
  cases hlk : pyLookup xs k with
  | none => rw [hlk] at hin; exact absurd hin (by simp)
  | some v =>
    have hb := pyLookup_sizeOf xs k v hlk
    obtain ⟨k', hk'⟩ := pyLookup_mem xs k v hlk
    have hndv := (noDupPairs_mem xs hnd _ hk').2
    show compare_values (dictKeyPath path k) v v = Except.ok []
    exact hv _ v (by omega) hndv

theorem compare_dict_keys_refl_of (m : Nat)
    (hv : ∀ (path : DiffPath) (v : Value), sizeOf v ≤ m →
      noDupMapKeys v = true → compare_values path v v = Except.ok []) :
    ∀ (ks : List Value) (xs : List (Value × Value)) (path : DiffPath),
      sizeOf xs ≤ m → noDupPairs xs = true →
      (∀ k ∈ ks, pyIn xs k = true) →
      compare_dict_keys path ks xs xs = Except.ok [] := by
  intro ks
  induction ks with
  | nil => intro xs path _ _ _; rw [compare_dict_keys]
  | cons k rest ih =>
    intro xs path hsz hnd hks
    have h1 := compare_dict_key_one_refl_of m hv k xs path hsz hnd
      (hks k (List.mem_cons_self _ _))
    have h2 := ih xs path hsz hnd (fun k2 hk2 => hks k2 (List.mem_cons_of_mem _ hk2))
    rw [compare_dict_keys, h1, except_bind_ok, h2, except_bind_ok]
    rfl

theorem compare_dicts_refl_of (m : Nat)
    (hv : ∀ (path : DiffPath) (v : Value), sizeOf v ≤ m →
      noDupMapKeys v = true → compare_values path v v = Except.ok [])
    (xs : List (Value × Value)) (path : DiffPath)
    (hsz : sizeOf xs ≤ m)
    (hnd : noDupPairs xs = true) :
    compare_dicts path xs xs = Except.ok [] := by
  have hkeys : ∀ k ∈ xs.map Prod.fst, pyIn xs k = true := by
    intro k hk
    obtain ⟨p, hp, hfst⟩ := List.mem_map.mp hk
    subst hfst
    exact pyIn_of_mem_keys xs p.1 hk (pyEq_refl p.1 (noDupPairs_mem xs hnd p hp).1)
  have hfilter : ((xs.map Prod.fst).filter fun k => !pyIn xs k) = [] := by
    rw [List.filter_eq_nil_iff]
    intro k hk
    rw [hkeys k hk]
    simp
  rw [compare_dicts.eq_def, hfilter, List.append_nil]
  refine compare_dict_keys_refl_of m hv _ xs path hsz hnd ?_
  intro k hk
  exact hkeys k (mem_pySorted _ _ _ hk)

theorem compare_values_reflN : ∀ (n : Nat) (path : DiffPath) (v : Value),
    sizeOf v ≤ n → noDupMapKeys v = true →
    compare_values path v v = Except.ok [] := by
  intro n
  induction n using Nat.strong_induction_on with
  | _ n ihn =>
    intro path v hsz hnd
    cases v with
    | vint x => rw [compare_values.eq_def]; simp [isNoneV, pyTypeName, pyEq_refl _ hnd]
    | vbool x => rw [compare_values.eq_def]; simp [isNoneV, pyTypeName, pyEq_refl _ hnd]
    | vfloat x =>
      rw [compare_values.eq_def]
      simp [isNoneV, pyTypeName, mathIsClose_refl]
    | vstr x => rw [compare_values.eq_def]; simp [isNoneV, pyTypeName, pyEq_refl _ hnd]
    | vobj x => rw [compare_values.eq_def]; simp [isNoneV, pyTypeName, pyEq_refl _ hnd]
    | verr x => rw [compare_values.eq_def]; simp [isNoneV, pyTypeName, pyEq_refl _ hnd]
    | vcatch x => rw [compare_values.eq_def]; simp [isNoneV, pyTypeName, pyEq_refl _ hnd]
    | vfinally x => rw [compare_values.eq_def]; simp [isNoneV, pyTypeName, pyEq_refl _ hnd]
    | vanon x => rw [compare_values.eq_def]; simp [isNoneV, pyTypeName, pyEq_refl _ hnd]
    | vwaifref i => rw [compare_values.eq_def]; simp [isNoneV, pyTypeName]
    | vclear => rw [compare_values.eq_def]; simp [isNoneV, pyTypeName]
    | vnone => rw [compare_values.eq_def]; simp [isNoneV]
    | vlist xs =>
      rw [compare_values.eq_def]
      rw [noDupMapKeys] at hnd
      have hs : sizeOf (Value.vlist xs) = 1 + sizeOf xs := by simp
      have hl := compare_lists_refl_of (sizeOf xs)
        (fun p v2 hle hnd2 => ihn (sizeOf xs) (by omega) p v2 hle hnd2)
        xs path (le_refl _) (noDupList_mem xs hnd)
      simp [isNoneV, pyTypeName, hl]
    | vtuple xs =>
      rw [compare_values.eq_def]
      rw [noDupMapKeys] at hnd
      have hs : sizeOf (Value.vtuple xs) = 1 + sizeOf xs := by simp
      have hl := compare_lists_refl_of (sizeOf xs)
        (fun p v2 hle hnd2 => ihn (sizeOf xs) (by omega) p v2 hle hnd2)
        xs path (le_refl _) (noDupList_mem xs hnd)
      simp [isNoneV, pyTypeName, hl]
    | vmap es =>
      rw [compare_values.eq_def]
      rw [noDupMapKeys, Bool.and_eq_true] at hnd
      have hs : sizeOf (Value.vmap es) = 1 + sizeOf es := by simp
      have hd := compare_dicts_refl_of (sizeOf es)
        (fun p v2 hle hnd2 => ihn (sizeOf es) (by omega) p v2 hle hnd2)
        es path (le_refl _) hnd.2
      simp [isNoneV, pyTypeName, hd]

theorem compare_values_refl (path : DiffPath) (v : Value)
    (hnd : noDupMapKeys v = true) : compare_values path v v = Except.ok [] :=
  compare_values_reflN (sizeOf v) path v (le_refl _) hnd

theorem compare_prop_pair_refl (propPath : DiffPath) (p : Property)
    (hnd : noDupMapKeys p.value = true) :
    compare_prop_pair propPath p p = Except.ok [] := by
  rw [compare_prop_pair, compare_values_refl _ _ hnd, except_bind_ok]
  simp

theorem compare_props_names_refl (path : DiffPath) :
    ∀ (names : List String) (bn : List (String × Property)),
      (∀ n ∈ names, (List.lookup n bn).isSome = true) →
      (∀ e ∈ bn, noDupMapKeys e.2.value = true) →
      compare_props_names path names bn bn = Except.ok [] := by
  intro names
  induction names with
  | nil => intro bn _ _; rw [compare_props_names]
  | cons n rest ih =>
    intro bn hns hnd
    have hin := hns n (List.mem_cons_self _ _)
    rw [compare_props_names]
    cases hlk : List.lookup n bn with
    | none => rw [hlk] at hin; exact absurd hin (by simp)
    | some p =>
      simp only [Option.isNone_some, Bool.false_eq_true, if_false]
      show (compare_prop_pair ((path.child (.str "properties")).child (.str n)) p p >>=
        fun d => compare_props_names path rest bn bn >>= fun restD =>
        Except.ok (d ++ restD)) = Except.ok []
      rw [compare_prop_pair_refl _ _ (hnd _ (lookup_mem bn n p hlk)), except_bind_ok,
        ih bn (fun n2 h2 => hns n2 (List.mem_cons_of_mem _ h2)) hnd, except_bind_ok]
      rfl

theorem compare_properties_refl (path : DiffPath) (ps : List Property)
    (hvals : ∀ p ∈ ps, noDupMapKeys p.value = true) :
    compare_properties path ps ps = Except.ok [] := by
  have hnd : ∀ e ∈ buildByName ps, noDupMapKeys e.2.value = true :=
    fun e he => hvals _ (buildByName_mem ps e he)
  have hfilter : (((buildByName ps).map Prod.fst).filter fun n =>
      (List.lookup n (buildByName ps)).isNone) = [] := by
    rw [List.filter_eq_nil_iff]
    intro n hn
    have := lookup_isSome_of_mem_keys (buildByName ps) n hn
    simp_all
  rw [compare_properties, hfilter, List.append_nil]
  refine compare_props_names_refl path _ _ ?_ hnd
  intro n hn
  exact lookup_isSome_of_mem_keys _ n (mem_pySorted _ _ _ hn)

theorem verb_pair_diffs_refl (vp : DiffPath) (v : Verb) :
    verb_pair_diffs vp v v = Except.ok [] := by
  rw [verb_pair_diffs]
  cases hc : v.code with
  | none => simp
  | some c =>
    simp [compare_values_refl _ _ (noDup_strListV c), except_bind_ok]

theorem verbs_zip_refl (path : DiffPath) :
    ∀ (vs : List Verb) (i : Nat), verbs_zip path i vs vs = Except.ok [] := by
  intro vs
  induction vs with
  | nil =>
    intro i
    rw [verbs_zip]
    all_goals (intros; simp_all)
  | cons v rest ih =>
    intro i
    rw [verbs_zip, verb_pair_diffs_refl, except_bind_ok, ih (i + 1), except_bind_ok]
    rfl

theorem compare_verbs_refl (path : DiffPath) (vs : List Verb) :
    compare_verbs path vs vs = Except.ok [] := by
  rw [compare_verbs, verbs_zip_refl path vs 0, except_bind_ok]
  simp

theorem compare_objects_refl (path : DiffPath) (o : MooObject)
    (hvals : objectValuesOk o = true) :
    compare_objects path o o = Except.ok [] := by
  rw [objectValuesOk, Bool.and_eq_true, Bool.and_eq_true] at hvals
  rw [compare_objects,
    compare_values_refl _ _ (noDup_intListV o.parents), except_bind_ok,
    compare_values_refl _ _ (noDup_intListV o.children), except_bind_ok,
    compare_values_refl _ _ (noDup_intListV o.contents), except_bind_ok,
    compare_properties_refl path o.properties
      (fun p hp => List.all_eq_true.mp hvals.2 p hp), except_bind_ok,
    compare_verbs_refl path o.verbs, except_bind_ok]
  simp [pyEq_refl _ hvals.1.1, pyEq_refl _ hvals.1.2]

theorem compare_waif_refl (path : DiffPath) (w : Waif)
    (h : ∀ sv ∈ w.props, noDupMapKeys sv.2 = true) :
    compare_waif path w w = Except.ok [] := by
  rw [compare_waif,
    compare_values_refl _ _ (noDup_waifPropsV _ h), except_bind_ok]
  simp

theorem waifs_loop_refl (path : DiffPath) :
    ∀ (idxs : List Int) (ws : List (Int × Waif)),
      (∀ i ∈ idxs, (List.lookup i ws).isSome = true) →
      (∀ e ∈ ws, ∀ sv ∈ e.2.props, noDupMapKeys sv.2 = true) →
      waifs_loop path idxs ws ws = Except.ok [] := by
  intro idxs
  induction idxs with
  | nil => intro ws _ _; rw [waifs_loop]
  | cons idx rest ih =>
    intro ws hns hnd
    have hin := hns idx (List.mem_cons_self _ _)
    rw [waifs_loop]
    cases hlk : List.lookup idx ws with
    | none => rw [hlk] at hin; exact absurd hin (by simp)
    | some w =>
      simp only [Option.isNone_some, Bool.false_eq_true, if_false]
      show (compare_waif ((path.child (.str "waifs")).child (.idx idx)) w w >>=
        fun d => waifs_loop path rest ws ws >>= fun restD =>
        Except.ok (d ++ restD)) = Except.ok []
      rw [compare_waif_refl _ _ (hnd _ (lookup_mem ws idx w hlk)), except_bind_ok,
        ih ws (fun i2 h2 => hns i2 (List.mem_cons_of_mem _ h2)) hnd, except_bind_ok]
      rfl

theorem compare_waifs_refl (path : DiffPath) (ws : List (Int × Waif))
    (hnd : ∀ e ∈ ws, ∀ sv ∈ e.2.props, noDupMapKeys sv.2 = true) :
    compare_waifs path ws ws = Except.ok [] := by
  rw [compare_waifs]
  refine waifs_loop_refl path _ ws ?_ hnd
  intro i hi
  have hm := mem_dedupInts _ i (mem_pySorted _ _ _ hi)
  rcases List.mem_append.mp hm with h | h
  · exact lookup_isSome_of_mem_keys _ i h
  · exact lookup_isSome_of_mem_keys _ i h

theorem objects_loop_refl :
    ∀ (ids : List Int) (objs : List (Int × MooObject)) (acc : List Diff),
      (∀ i ∈ ids, (List.lookup i objs).isSome = true) →
      (∀ e ∈ objs, objectValuesOk e.2 = true) →
      objects_loop none ids objs objs acc = Except.ok (acc, true) := by
  intro ids
  induction ids with
  | nil => intro objs acc _ _; rw [objects_loop]
  | cons objId rest ih =>
    intro objs acc hns hnd
    have hin := hns objId (List.mem_cons_self _ _)
    rw [objects_loop]
    cases hlk : List.lookup objId objs with
    | none => rw [hlk] at hin; exact absurd hin (by simp)
    | some o =>
      simp only [Option.isNone_some, Bool.false_eq_true, if_false]
      show (compare_objects (DiffPath.objectOf objId) o o >>= fun ds =>
        let r := addDiffsLoop none acc ds
        if r.2 then objects_loop none rest objs objs r.1
        else Except.ok (r.1, false)) = Except.ok (acc, true)
      rw [compare_objects_refl _ _ (hnd _ (lookup_mem objs objId o hlk)), except_bind_ok]
      show objects_loop none rest objs objs acc = Except.ok (acc, true)
      exact ih objs acc (fun i2 h2 => hns i2 (List.mem_cons_of_mem _ h2)) hnd

/-- C2: comparing any database against itself, with no ignore set and no
max_diffs limit, returns a successful result containing zero differences,
provided every dict value held in the database is free of duplicate keys
(true of every database built from real Python dicts). -/
theorem compare_databases_self (db : MooDatabase) (h : dbValuesOk db = true) :
    compare_databases db db none none = Except.ok ⟨[]⟩ := by
  rw [dbValuesOk, Bool.and_eq_true] at h
  have hobjsOk : ∀ e ∈ db.objects, objectValuesOk e.2 = true :=
    fun e he => List.all_eq_true.mp h.1 e he
  have hwaifsOk : ∀ e ∈ db.waifs, ∀ sv ∈ e.2.props, noDupMapKeys sv.2 = true :=
    fun e he sv hsv => List.all_eq_true.mp (List.all_eq_true.mp h.2 e he) sv hsv
  have hver : db_version_diffs [] db db = [] := by
    rw [db_version_diffs]; simp
  have hverstr : db_versionstring_diffs [] db db = [] := by
    rw [db_versionstring_diffs]; simp
  have htot : db_total_objects_diffs [] db db = [] := by
    rw [db_total_objects_diffs]; simp
  have hplayers : db_section_players [] db db = Except.ok [] := by
    show compare_values (DiffPath.root.child (.str "players")) (intListV db.players)
      (intListV db.players) = Except.ok []
    exact compare_values_refl _ _ (noDup_intListV _)
  have hrecycled : db_section_recycled [] db db = Except.ok [] := by
    show compare_values (DiffPath.root.child (.str "recycled_objects"))
      (intListV (pySorted intLe (dedupInts db.recycled_objects)))
      (intListV (pySorted intLe (dedupInts db.recycled_objects))) = Except.ok []
    exact compare_values_refl _ _ (noDup_intListV _)
  have hanon : db_section_anon [] db db = Except.ok [] := by
    show compare_values (DiffPath.root.child (.str "pending_anon_ids"))
      (intListV db.pending_anon_ids) (intListV db.pending_anon_ids) = Except.ok []
    exact compare_values_refl _ _ (noDup_intListV _)
  have hwaifs : db_section_waifs [] db db = Except.ok [] := by
    show compare_waifs DiffPath.root db.waifs db.waifs = Except.ok []
    exact compare_waifs_refl _ db.waifs hwaifsOk
  have hobjects : ∀ diffs : List Diff,
      db_section_objects [] none db db diffs = Except.ok (diffs, true) := by
    intro diffs
    show objects_loop none
      (pySorted intLe (dedupInts
        ((db.objects.map Prod.fst) ++ (db.objects.map Prod.fst))))
      db.objects db.objects diffs = Except.ok (diffs, true)
    refine objects_loop_refl _ db.objects diffs ?_ hobjsOk
    intro i hi
    have hm := mem_dedupInts _ i (mem_pySorted _ _ _ hi)
    rcases List.mem_append.mp hm with h2 | h2 <;>
      exact lookup_isSome_of_mem_keys _ i h2
  have hnil : ∀ acc : List Diff, addDiffsLoop none acc [] = (acc, true) :=
    fun _ => rfl
  simp only [compare_databases, Option.getD_none, hver, hverstr, htot, hnil,
    hplayers, except_bind_ok, hrecycled, hanon, hobjects, hwaifs]

theorem compare_databases_self_witness :
    dbValuesOk dbEmpty = true ∧
      compare_databases dbEmpty dbEmpty none none = Except.ok ⟨[]⟩ :=
  ⟨rfl, compare_databases_self dbEmpty rfl⟩

